import Mathlib

/-!
Verification of the extraction-and-deduplication pipeline of
`worldbank_scraper.py` (World Bank Group job scraper).

The Python source is shallowly embedded: pure helper functions become Lean
functions on `String` / `List Char` / `Nat`; the HTML documents consumed by
the scraper become an inductive tree type with BeautifulSoup-style search
functions; the RSS serializer (`xml.etree.ElementTree` construction followed
by `minidom.toprettyxml(indent='  ')` and blank-line stripping) becomes an
explicit tree type with a character-level pretty-printer; the feed reader
(`ET.parse` plus link extraction) becomes a character-level XML parser.
File and browser I/O are represented by explicit `Option` inputs: the prior
feed file is `Option String` (`none` = file absent), the rendered page is
`Option (List HNode)` (`none` = the render step raised).

All definitions are executable and structurally recursive so that concrete
runs of the pipeline evaluate inside the kernel.
-/

set_option maxRecDepth 20000

/-! ## Character and string utilities

Python string primitives used by the scraper (`str.lower`, `str.strip`,
`in` (substring), `str.startswith`, `str.split`, `str.join`) are modelled
on `List Char` so that they reduce in the kernel. -/

/-- Python `str.lower()` on a character list (ASCII-adequate, like the
usages in the source, whose alphabets are ASCII). -/
def lowerChars (cs : List Char) : List Char := cs.map Char.toLower

/-- Python `str.strip()`: drop whitespace from both ends. -/
def trimChars (cs : List Char) : List Char :=
  ((cs.dropWhile Char.isWhitespace).reverse.dropWhile Char.isWhitespace).reverse

/-- Python `str.strip()` on `String`. -/
def strTrim (s : String) : String := (trimChars s.toList).asString

/-- Python substring membership `pat in s` on character lists. -/
def isSubChars (pat : List Char) : List Char → Bool
  | [] => pat.isEmpty
  | c :: rest => List.isPrefixOf pat (c :: rest) || isSubChars pat rest

/-- Python `pat in s` for strings. -/
def strContains (s pat : String) : Bool := isSubChars pat.toList s.toList

/-- Python `s.startswith(p)`. -/
def strStarts (s p : String) : Bool := List.isPrefixOf p.toList s.toList

/-- Python `s.lower()`. -/
def strLower (s : String) : String := (lowerChars s.toList).asString

/-- Split a character list at newline characters (Python `s.split('\n')`). -/
def splitNL : List Char → List (List Char)
  | [] => [[]]
  | c :: rest =>
    let r := splitNL rest
    if c = '\n' then [] :: r
    else (c :: r.headD []) :: r.tail

/-- Python `'\n'.join(lines)` on character lists. -/
def joinNL : List (List Char) → List Char
  | [] => []
  | [l] => l
  | l :: rest => l ++ '\n' :: joinNL rest

/-- A line is blank when it strips to nothing (Python `if line.strip()`). -/
def isBlankLine (l : List Char) : Bool := (trimChars l).isEmpty

/-! ## MD5 (`hashlib.md5`)

Faithful executable MD5 over byte lists (bytes as `Nat` below 256, 32-bit
words as `Nat` reduced modulo `2 ^ 32`), used by `generate_numeric_id`. -/

/-- UTF-8 encoding of one code point (Python `str.encode()` per character). -/
def utf8Char (c : Char) : List Nat :=
  let n := c.toNat
  if n < 0x80 then [n]
  else if n < 0x800 then [0xC0 + n / 0x40, 0x80 + n % 0x40]
  else if n < 0x10000 then
    [0xE0 + n / 0x1000, 0x80 + n / 0x40 % 0x40, 0x80 + n % 0x40]
  else
    [0xF0 + n / 0x40000, 0x80 + n / 0x1000 % 0x40, 0x80 + n / 0x40 % 0x40,
     0x80 + n % 0x40]

/-- Python `url.encode()`: UTF-8 bytes of a string. -/
def utf8Bytes (s : String) : List Nat := s.toList.flatMap utf8Char

/-- MD5 per-round shift amounts. -/
def md5S : List Nat :=
  [7, 12, 17, 22, 7, 12, 17, 22, 7, 12, 17, 22, 7, 12, 17, 22,
   5, 9, 14, 20, 5, 9, 14, 20, 5, 9, 14, 20, 5, 9, 14, 20,
   4, 11, 16, 23, 4, 11, 16, 23, 4, 11, 16, 23, 4, 11, 16, 23,
   6, 10, 15, 21, 6, 10, 15, 21, 6, 10, 15, 21, 6, 10, 15, 21]

/-- MD5 sine-derived round constants. -/
def md5K : List Nat :=
  [0xd76aa478, 0xe8c7b756, 0x242070db, 0xc1bdceee,
   0xf57c0faf, 0x4787c62a, 0xa8304613, 0xfd469501,
   0x698098d8, 0x8b44f7af, 0xffff5bb1, 0x895cd7be,
   0x6b901122, 0xfd987193, 0xa679438e, 0x49b40821,
   0xf61e2562, 0xc040b340, 0x265e5a51, 0xe9b6c7aa,
   0xd62f105d, 0x02441453, 0xd8a1e681, 0xe7d3fbc8,
   0x21e1cde6, 0xc33707d6, 0xf4d50d87, 0x455a14ed,
   0xa9e3e905, 0xfcefa3f8, 0x676f02d9, 0x8d2a4c8a,
   0xfffa3942, 0x8771f681, 0x6d9d6122, 0xfde5380c,
   0xa4beea44, 0x4bdecfa9, 0xf6bb4b60, 0xbebfbc70,
   0x289b7ec6, 0xeaa127fa, 0xd4ef3085, 0x04881d05,
   0xd9d4d039, 0xe6db99e5, 0x1fa27cf8, 0xc4ac5665,
   0xf4292244, 0x432aff97, 0xab9423a7, 0xfc93a039,
   0x655b59c3, 0x8f0ccc92, 0xffeff47d, 0x85845dd1,
   0x6fa87e4f, 0xfe2ce6e0, 0xa3014314, 0x4e0811a1,
   0xf7537e82, 0xbd3af235, 0x2ad7d2bb, 0xeb86d391]

/-- Rotate a 32-bit word (as `Nat`) left by `s` bits. -/
def rotl32 (x s : Nat) : Nat := (x * 2 ^ s + x / 2 ^ (32 - s)) % 2 ^ 32

/-- Bitwise complement within 32 bits. -/
def not32 (x : Nat) : Nat := 0xFFFFFFFF ^^^ x

/-- One little-endian 32-bit word from four bytes. -/
def leWord (b0 b1 b2 b3 : Nat) : Nat :=
  b0 + 0x100 * b1 + 0x10000 * b2 + 0x1000000 * b3

/-- The sixteen message words of one 64-byte block. -/
def blockWords : List Nat → List Nat
  | b0 :: b1 :: b2 :: b3 :: rest => leWord b0 b1 b2 b3 :: blockWords rest
  | _ => []

/-- The MD5 round computation for indices `i = 64 - fuel` through 63. -/
def md5Rounds (m : List Nat) : Nat → Nat × Nat × Nat × Nat → Nat × Nat × Nat × Nat
  | 0, st => st
  | fuel + 1, (a, b, c, d) =>
    let i := 64 - (fuel + 1)
    let fg : Nat × Nat :=
      if i < 16 then ((b &&& c) ||| (not32 b &&& d), i)
      else if i < 32 then ((d &&& b) ||| (not32 d &&& c), (5 * i + 1) % 16)
      else if i < 48 then (b ^^^ c ^^^ d, (3 * i + 5) % 16)
      else (c ^^^ (b ||| not32 d), (7 * i) % 16)
    let f := (fg.1 + a + md5K.getD i 0 + m.getD fg.2 0) % 2 ^ 32
    let b' := (b + rotl32 f (md5S.getD i 0)) % 2 ^ 32
    md5Rounds m fuel (d, b', b, c)

/-- Process the padded message block by block. -/
def md5Blocks : Nat → Nat × Nat × Nat × Nat → List Nat → Nat × Nat × Nat × Nat
  | 0, st, _ => st
  | _, st, [] => st
  | fuel + 1, (a0, b0, c0, d0), bytes =>
    let m := blockWords (bytes.take 64)
    let r := md5Rounds m 64 (a0, b0, c0, d0)
    md5Blocks fuel
      ((a0 + r.1) % 2 ^ 32, (b0 + r.2.1) % 2 ^ 32,
       (c0 + r.2.2.1) % 2 ^ 32, (d0 + r.2.2.2) % 2 ^ 32)
      (bytes.drop 64)

/-- MD5 padding: `0x80`, zeros to 56 mod 64, then the bit length as eight
little-endian bytes. -/
def md5Pad (msg : List Nat) : List Nat :=
  let len := msg.length
  let zeros := (55 + 2 * 64 - len % 64) % 64
  let bitLen := 8 * len % 2 ^ 64
  msg ++ 0x80 :: List.replicate zeros 0 ++
    [bitLen % 0x100, bitLen / 0x100 % 0x100, bitLen / 0x10000 % 0x100,
     bitLen / 0x1000000 % 0x100, bitLen / 0x100000000 % 0x100,
     bitLen / 0x10000000000 % 0x100, bitLen / 0x1000000000000 % 0x100,
     bitLen / 0x100000000000000 % 0x100]

/-- Little-endian byte decomposition of a 32-bit word. -/
def leBytes (w : Nat) : List Nat :=
  [w % 0x100, w / 0x100 % 0x100, w / 0x10000 % 0x100, w / 0x1000000 % 0x100]

/-- The sixteen digest bytes of a byte message. -/
def md5Digest (msg : List Nat) : List Nat :=
  let padded := md5Pad msg
  let st := md5Blocks (padded.length / 64 + 1)
    (0x67452301, 0xefcdab89, 0x98badcfe, 0x10325476) padded
  leBytes st.1 ++ leBytes st.2.1 ++ leBytes st.2.2.1 ++ leBytes st.2.2.2

/-- One lowercase hexadecimal digit. -/
def hexDigit (n : Nat) : Char :=
  if n < 10 then Char.ofNat (48 + n) else Char.ofNat (87 + n)

/-- Lowercase hex string of a byte list (Python `hexdigest()`). -/
def hexChars (bs : List Nat) : List Char :=
  bs.flatMap fun b => [hexDigit (b / 16), hexDigit (b % 16)]

/-- Python `hashlib.md5(url.encode()).hexdigest()` as a character list. -/
def md5HexOf (s : String) : List Char := hexChars (md5Digest (utf8Bytes s))

/-- Numeric value of a hex-digit character list (Python `int(h, 16)`). -/
def hexToNat (cs : List Char) : Nat :=
  cs.foldl (fun acc c =>
    16 * acc + (if c.toNat ≥ 97 then c.toNat - 87 else c.toNat - 48)) 0

/-- Decimal digit characters of a natural number, most significant first
(Python `str(n)`); the fuel argument dominates the number. -/
def natDigitsAux : Nat → Nat → List Char
  | 0, _ => []
  | fuel + 1, n =>
    if n < 10 then [Char.ofNat (48 + n)]
    else natDigitsAux fuel (n / 10) ++ [Char.ofNat (48 + n % 10)]

/-- Python `str(n)` for natural numbers. -/
def natStr (n : Nat) : String := (natDigitsAux (n + 1) n).asString
-- MD5 test vectors (checked against reference digests).
example : (md5HexOf "").asString = "d41d8cd98f00b204e9800998ecf8427e" := by decide
example : (md5HexOf "abc").asString = "900150983cd24fb0d6963f7d28e17f72" := by decide

/-! ## `generate_numeric_id` (source lines 46-52) -/

/-- The numeric value `int(hexdigest[:12], 16) % 100000000`. -/
def numericIdVal (url : String) : Nat :=
  hexToNat ((md5HexOf url).take 12) % 100000000

/-- Source `generate_numeric_id(url)`: the md5 hex digest of the UTF-8
encoded URL, truncated to 12 hex characters, reduced modulo `10 ^ 8`,
rendered in decimal. -/
def generate_numeric_id (url : String) : String := natStr (numericIdVal url)
example : generate_numeric_id "https://worldbankgroup.csod.com/jobs/x1" = "9598256" := by decide

/-! ## Rendered HTML model

BeautifulSoup documents become trees of `HNode`. An element carries its tag
name, its attribute list, and its children; a text node carries its string
(a NavigableString). The `class` attribute is modelled as the literal
attribute text of the markup; the source's class lambdas test substring
membership in `str(x).lower()`, which this matches for the source's
bracket-free keywords. -/

inductive HNode where
  | tx (s : String)
  | el (tag : String) (attrs : List (String × String)) (children : List HNode)

/-- Tag name of a node (Python `element.name`; text nodes have none). -/
def tagOf : HNode → String
  | .tx _ => ""
  | .el t _ _ => t

/-- Attribute lookup (Python `element.get(key)`). -/
def attrOf (n : HNode) (k : String) : Option String :=
  match n with
  | .tx _ => none
  | .el _ attrs _ => (attrs.find? fun p => p.1 == k).map Prod.snd

mutual

/-- All nodes of a subtree in document (pre-)order, the root included. -/
def subNodes : HNode → List HNode
  | .tx s => [.tx s]
  | .el t a cs => .el t a cs :: subForest cs

/-- All nodes of a forest in document order. -/
def subForest : List HNode → List HNode
  | [] => []
  | c :: rest => subNodes c ++ subForest rest

end

/-- Strict descendants of a node (what `element.find`/`find_all` search). -/
def strictDescs : HNode → List HNode
  | .tx _ => []
  | .el _ _ cs => subForest cs

/-- First strict descendant satisfying a predicate (Python `element.find`). -/
def findDesc (n : HNode) (p : HNode → Bool) : Option HNode :=
  (strictDescs n).find? p

/-- First descendant NavigableString satisfying a predicate
(Python `element.find(string=...)`). -/
def findTextDesc (n : HNode) (p : String → Bool) : Option String :=
  ((strictDescs n).filterMap fun m =>
    match m with
    | .tx s => some s
    | .el _ _ _ => none).find? p

/-- Concatenation of a string list (Python `''.join`). -/
def joinStr (l : List String) : String := l.foldl (fun a b => a ++ b) ""

/-- Python `element.get_text(strip=True)`: each descendant string stripped,
empties dropped, the rest concatenated. -/
def getTextStrip (n : HNode) : String :=
  joinStr (((subNodes n).filterMap fun m =>
    match m with
    | .tx s => some s
    | .el _ _ _ => none).map strTrim |>.filter fun s => s ≠ "")

/-! ## Candidate Locator (`scrape_worldbank_jobs`, source lines 103-121) -/

/-- Class-attribute test used by strategy 1: the attribute exists, is truthy,
and its lowercased text contains one of the hint keywords. -/
def classHint (n : HNode) : Bool :=
  match attrOf n "class" with
  | none => false
  | some c =>
    !c.isEmpty && (["job-card", "job-item", "position", "vacancy", "requisition"].any
      fun k => strContains (strLower c) k)

/-- Strategy 1: `soup.find_all(['div', 'article', 'li'], class_=...)`. -/
def strategy1 (doc : List HNode) : List HNode :=
  (subForest doc).filter fun n =>
    ["div", "article", "li"].contains (tagOf n) && classHint n

/-- Href test of strategy 2: attribute present, truthy, and containing
`requisition` case-insensitively. -/
def requisitionHref (n : HNode) : Bool :=
  match attrOf n "href" with
  | none => false
  | some h => !h.isEmpty && strContains (strLower h) "requisition"

/-- Strategy 2: requisition links with visible text longer than 5. -/
def strategy2 (doc : List HNode) : List HNode :=
  ((subForest doc).filter fun n => tagOf n == "a" && requisitionHref n).filter
    fun l => (getTextStrip l).length > 5

/-- Membership test for a heading-or-link descendant (`find(['h2','h3','h4','a'])`). -/
def hasTitleLike (n : HNode) : Bool :=
  (findDesc n fun m => ["h2", "h3", "h4", "a"].contains (tagOf m)).isSome

/-- Membership test for an anchor descendant with an href (`find('a', href=True)`). -/
def hasHrefAnchor (n : HNode) : Bool :=
  (findDesc n fun m => tagOf m == "a" && (attrOf m "href").isSome).isSome

/-- Strategy 3: containers (`div`/`article`) having both a heading-or-link
descendant and an anchor-with-href descendant. -/
def strategy3 (doc : List HNode) : List HNode :=
  (subForest doc).filter fun n =>
    ["div", "article"].contains (tagOf n) && hasTitleLike n && hasHrefAnchor n

/-- The strategy cascade of the source: strategy 1's hits, else strategy 2's,
else strategy 3's (mirroring the sequential reassignment of `job_elements`). -/
def locateCandidates (doc : List HNode) : List HNode :=
  let s1 := strategy1 doc
  if s1.isEmpty then
    let s2 := strategy2 doc
    if s2.isEmpty then strategy3 doc else s2
  else s1

/-! ## Record Normalizer (`scrape_worldbank_jobs`, source lines 125-196) -/

/-- One canonical job record (the `job_data` dict). -/
structure Job where
  title : String
  link : String
  location : String
  department : String
  description : String
deriving DecidableEq, Repr

/-- Link normalization (source lines 130-136 and 140-146): absolute
references kept, site-root-relative references prefixed with the origin,
anything else prefixed with the careers listing path. -/
def normalizeHref (h : String) : String :=
  if strStarts h "http" then h
  else if strStarts h "/" then "https://worldbankgroup.csod.com" ++ h
  else "https://worldbankgroup.csod.com/ux/ats/careersite/1/" ++ h

/-- Class-mention test (`class_=lambda x: x and sub in str(x).lower()`). -/
def classMentions (n : HNode) (sub : String) : Bool :=
  match attrOf n "class" with
  | none => false
  | some c => !c.isEmpty && strContains (strLower c) sub

/-- The stoplist of generic navigation terms (source line 167). -/
def skipKeywords : List String :=
  ["search", "filter", "sort", "login", "sign in", "home", "about", "contact"]

/-- Title rejection (source lines 164-169): missing or shorter than 5
characters, or containing a stoplist keyword case-insensitively. -/
def titleRejected (t : String) : Bool :=
  t.isEmpty || t.length < 5 || skipKeywords.any fun k => strContains (strLower t) k

/-- Location text cues (source line 174), matched case-sensitively. -/
def locationCues : List String := ["Washington", "DC", "Remote", "Location:"]

/-- The link extracted for a candidate (source lines 129-148): the candidate
itself when it is an anchor with a truthy href, else its first anchor
descendant carrying an href; `none` rejects the candidate. -/
def extractLink (e : HNode) : Option String :=
  if tagOf e == "a" && ((attrOf e "href").getD "") ≠ "" then
    some (normalizeHref ((attrOf e "href").getD ""))
  else
    match findDesc e fun m => tagOf m == "a" && (attrOf m "href").isSome with
    | some a => some (normalizeHref ((attrOf a "href").getD ""))
    | none => none

/-- The title extracted for a candidate (source lines 150-162). -/
def extractTitle (e : HNode) : String :=
  if tagOf e == "a" then getTextStrip e
  else
    match findDesc e fun m =>
        ["h2", "h3", "h4", "a"].contains (tagOf m) && classMentions m "title" with
    | some t => getTextStrip t
    | none =>
      match findDesc e fun m => ["h2", "h3", "h4"].contains (tagOf m) with
      | some t => getTextStrip t
      | none =>
        match findDesc e fun m => tagOf m == "a" with
        | some t => getTextStrip t
        | none => ((getTextStrip e).toList.take 100).asString

/-- The location extracted for a candidate (source lines 171-176). -/
def extractLocation (e : HNode) : String :=
  match findDesc e fun m =>
      ["span", "div", "p"].contains (tagOf m) && classMentions m "location" with
  | some le => getTextStrip le
  | none =>
    match findTextDesc e fun s =>
        !s.isEmpty && locationCues.any fun cue => strContains s cue with
    | some s => strTrim s
    | none => "Washington, DC"

/-- The department extracted for a candidate (source lines 178-179). -/
def extractDepartment (e : HNode) : String :=
  match findDesc e fun m =>
      ["span", "div", "p"].contains (tagOf m) && classMentions m "department" with
  | some de => getTextStrip de
  | none => ""

/-- The derived description (source lines 181-188): space-joined narrative
parts, the department clause only when the department is non-empty. -/
def buildDescription (title dept loc : String) : String :=
  String.intercalate " "
    (["World Bank Group has a vacancy for the position of " ++ title] ++
      (if dept ≠ "" then ["in the " ++ dept] else []) ++
      ["Location: " ++ loc]) ++ "."

/-- Normalization of one candidate (loop body, source lines 125-196): reject
on missing link, short or stoplisted title; otherwise produce the record. -/
def processElement (e : HNode) : Option Job :=
  match extractLink e with
  | none => none
  | some link =>
    let title := extractTitle e
    if titleRejected title then none
    else
      let loc := extractLocation e
      let dept := extractDepartment e
      let job : Job :=
        { title := title, link := link, location := loc, department := dept,
          description := buildDescription title dept loc }
      if title ≠ "" && link ≠ "" then some job else none

/-- Source `scrape_worldbank_jobs()`: `none` models a raised render step
(the `except` swallows it and the accumulated `jobs` list stays empty);
otherwise the first 50 candidates are normalized, rejects skipped. -/
def scrape_worldbank_jobs (page : Option (List HNode)) : List Job :=
  match page with
  | none => []
  | some doc => ((locateCandidates doc).take 50).filterMap processElement

/-! ## Feed Codec, serialize path (`generate_rss_feed`, source lines 208-268)

The source builds an `xml.etree.ElementTree`, serializes it, re-parses with
`minidom`, pretty-prints with two-space indents, strips blank lines and
joins. The tree is `XNode`; the pretty-printer `renderNode` mirrors
`minidom.writexml(indent='', addindent='  ', newl='\n')`: each element on
its own indented line, a single text child inlined, childless elements
self-closed (which is also where ElementTree leaves empty `.text`). -/

inductive XNode where
  | xtext (s : String)
  | xel (tag : String) (attrs : List (String × String)) (children : List XNode)

/-- Serializer escaping of character data (`&`, `<`, `>`), as ElementTree
applies to text content. -/
def escChar (c : Char) : List Char :=
  if c = '&' then ['&', 'a', 'm', 'p', ';']
  else if c = '<' then ['&', 'l', 't', ';']
  else if c = '>' then ['&', 'g', 't', ';']
  else [c]

/-- Escaped character data. -/
def esc (cs : List Char) : List Char := cs.flatMap escChar

/-- Rendered attribute list: one ` name="value"` per attribute (the feed's
attribute values need no escaping). -/
def attrsChars (attrs : List (String × String)) : List Char :=
  attrs.flatMap fun p => ' ' :: (p.1.toList ++ '=' :: '"' :: p.2.toList ++ ['"'])

mutual

/-- Pretty-printed chunk of one node at an indent: `indent<tag ...>...\n`. -/
def renderNode (ind : List Char) : XNode → List Char
  | .xtext s => ind ++ esc s.toList ++ ['\n']
  | .xel t a [] => ind ++ '<' :: (t.toList ++ attrsChars a ++ ['/', '>', '\n'])
  | .xel t a [.xtext s] =>
    ind ++ '<' :: (t.toList ++ attrsChars a ++ '>' :: esc s.toList ++
      '<' :: '/' :: t.toList ++ ['>', '\n'])
  | .xel t a ch =>
    ind ++ '<' :: (t.toList ++ attrsChars a ++ '>' :: '\n' ::
      renderForest (ind ++ [' ', ' ']) ch ++ ind ++ '<' :: '/' :: t.toList ++ ['>', '\n'])

/-- Pretty-printed chunks of a child sequence. -/
def renderForest (ind : List Char) : List XNode → List Char
  | [] => []
  | c :: rest => renderNode ind c ++ renderForest ind rest

end

/-- The pretty document: XML declaration line, then the root at indent 0. -/
def prettyDoc (root : XNode) : List Char :=
  "<?xml version=\"1.0\" ?>\n".toList ++ renderNode [] root

/-- A child list for text content `s`: ElementTree serializes empty text
like absent text, self-closing the element. -/
def textKids (s : String) : List XNode :=
  if s = "" then [] else [.xtext s]

/-- One feed `item` element (source lines 234-258). -/
def itemNode (now : String) (j : Job) : XNode :=
  .xel "item" []
    [.xel "title" [] (textKids j.title),
     .xel "link" [] (textKids j.link),
     .xel "description" [] (textKids j.description),
     .xel "guid" [("isPermaLink", "false")] (textKids (generate_numeric_id j.link)),
     .xel "pubDate" [] (textKids now),
     .xel "source" [("url", "https://worldbankgroup.csod.com/")]
       (textKids "World Bank Group Job Vacancies")]

/-- The feed document tree (source lines 211-258); `now` is the RFC-822
rendering of `datetime.utcnow()` shared by the channel and every item.
ElementTree serializes the namespace declaration ahead of the plain
attributes, hence the attribute order. -/
def buildRss (now : String) (jobs : List Job) : XNode :=
  .xel "rss"
    [("xmlns:dc", "http://purl.org/dc/elements/1.1/"), ("version", "2.0"),
     ("xml:base", "https://worldbankgroup.csod.com/")]
    [.xel "channel" []
      ([.xel "title" [] (textKids "World Bank Group Job Vacancies"),
        .xel "link" [] (textKids "https://worldbankgroup.csod.com/"),
        .xel "description" [] (textKids "List of vacancies at the World Bank Group"),
        .xel "language" [] (textKids "en"),
        .xel "pubDate" [] (textKids now)] ++ jobs.map (itemNode now))]

/-- Source `generate_rss_feed(jobs)`: the exact character content written to
the feed file — pretty-printed document, blank lines removed, remaining
lines newline-joined (source lines 260-268). -/
def generate_rss_feed (now : String) (jobs : List Job) : String :=
  (joinNL ((splitNL (prettyDoc (buildRss now jobs))).filter
    fun l => !isBlankLine l)).asString

/-! ## Feed Codec, parse path (`get_existing_job_links`, source lines 54-77)

`ET.parse` becomes a character-level XML parser producing `PNode` trees
(tags and text; attributes are skipped, as nothing in the extraction reads
them). Unparseable input yields `none`, the counterpart of the caught
exception. -/

inductive PNode where
  | ptext (s : String)
  | pel (tag : List Char) (kids : List PNode)

/-- Characters allowed in a tag name. -/
def nameChar (c : Char) : Bool :=
  c.isAlpha || c.isDigit || c = ':' || c = '-' || c = '_'

/-- Character data up to the next markup start. -/
def takeUntilLt : List Char → List Char × List Char
  | [] => ([], [])
  | c :: r =>
    if c = '<' then ([], c :: r)
    else
      let p := takeUntilLt r
      (c :: p.1, p.2)

/-- Scan past the attribute region to the closing `>`; reports whether the
tag was self-closing (`/>`). -/
def skipAttrsToGt : List Char → Option (Bool × List Char)
  | [] => none
  | '/' :: '>' :: r => some (true, r)
  | '>' :: r => some (false, r)
  | _ :: r => skipAttrsToGt r

/-- Consume a closing tag `</t>`, returning what follows. -/
def closeTagRest (t : List Char) (cs : List Char) : Option (List Char) :=
  match cs with
  | '<' :: '/' :: r =>
    if List.isPrefixOf t r then
      match r.drop t.length with
      | '>' :: rest => some rest
      | _ => none
    else none
  | _ => none

/-- Entity resolution of parsed character data (`&amp;`, `&lt;`, `&gt;`). -/
def unesc : List Char → List Char
  | [] => []
  | c :: r =>
    if c = '&' then
      match r with
      | 'a' :: 'm' :: 'p' :: ';' :: r2 => '&' :: unesc r2
      | 'l' :: 't' :: ';' :: r2 => '<' :: unesc r2
      | 'g' :: 't' :: ';' :: r2 => '>' :: unesc r2
      | r2 => '&' :: unesc r2
    else c :: unesc r

/-- Whether a character list starts with a given character. -/
def headIs (cs : List Char) (x : Char) : Bool :=
  match cs with
  | [] => false
  | c :: _ => c = x

mutual

/-- Parse one node: an element from `<` or a text run up to `<`. -/
def parseOne : Nat → List Char → Option (PNode × List Char)
  | 0, _ => none
  | fuel + 1, cs =>
    match cs with
    | [] => none
    | c :: r =>
      if c = '<' then
        if headIs r '/' then none
        else
          let nm := r.takeWhile nameChar
          if nm.isEmpty then none
          else
            match skipAttrsToGt (r.dropWhile nameChar) with
            | none => none
            | some (true, rest) => some (.pel nm [], rest)
            | some (false, rest) =>
              match parseNodes fuel rest with
              | none => none
              | some (kids, rest2) =>
                match closeTagRest nm rest2 with
                | none => none
                | some rest3 => some (.pel nm kids, rest3)
      else
        let p := takeUntilLt (c :: r)
        some (.ptext (unesc p.1).asString, p.2)

/-- Parse sibling nodes until a closing tag or the end of input. -/
def parseNodes : Nat → List Char → Option (List PNode × List Char)
  | 0, _ => none
  | fuel + 1, cs =>
    match cs with
    | [] => some ([], [])
    | c :: r =>
      if c = '<' && headIs r '/' then some ([], c :: r)
      else
        match parseOne fuel (c :: r) with
        | none => none
        | some (n, rest) =>
          match parseNodes fuel rest with
          | none => none
          | some (ns, rest2) => some (n :: ns, rest2)

end

/-- Drop an XML declaration `<?xml ... ?>` if present. -/
def dropToQGt : List Char → List Char
  | '?' :: '>' :: r => r
  | _ :: r => dropToQGt r
  | [] => []

/-- Skip the document prolog. -/
def skipDecl : List Char → List Char
  | '<' :: '?' :: r => dropToQGt r
  | cs => cs

/-- Whether a parsed node is an element. -/
def isPel : PNode → Bool
  | .pel _ _ => true
  | .ptext _ => false

/-- Document parse (`ET.parse`): prolog skipped, one root element expected;
`none` models a parse exception. -/
def parseXmlChars (cs : List Char) : Option PNode :=
  let body := (skipDecl cs).dropWhile Char.isWhitespace
  match parseNodes (cs.length + 1) body with
  | some (ns, []) =>
    match ns.filter isPel with
    | [root] => some root
    | _ => none
  | _ => none

mutual

/-- All parsed nodes of a subtree, the root included, in document order. -/
def psubNodes : PNode → List PNode
  | .ptext s => [.ptext s]
  | .pel t ks => .pel t ks :: psubForest ks

/-- All parsed nodes of a forest in document order. -/
def psubForest : List PNode → List PNode
  | [] => []
  | c :: rest => psubNodes c ++ psubForest rest

end

/-- ElementTree `elem.text`: the character data before any first child. -/
def ptextOf : PNode → Option String
  | .pel _ (.ptext s :: _) => some s
  | _ => none

/-- ElementTree `item.find('link')`: the first direct child element named
`link`. -/
def findLinkChild : PNode → Option PNode
  | .pel _ ks =>
    ks.find? fun k =>
      match k with
      | .pel t _ => t == "link".toList
      | .ptext _ => false
  | .ptext _ => none

/-- The `root.findall('.//item')` selection: every descendant element named
`item` (the root itself excluded), in document order. -/
def findItems (root : PNode) : List PNode :=
  (match root with
   | .pel _ ks => psubForest ks
   | .ptext _ => []).filter fun n =>
    match n with
    | .pel t _ => t == "item".toList
    | .ptext _ => false

/-- Python `set.add`: membership-preserving insert. -/
def addOnce (acc : List String) (t : String) : List String :=
  if acc.contains t then acc else acc ++ [t]

/-- The identity keys of a parsed feed: each item's truthy link text,
stripped (source lines 66-69). -/
def extractFeedLinks (root : PNode) : List String :=
  (findItems root).foldl
    (fun acc it =>
      match findLinkChild it with
      | none => acc
      | some le =>
        match ptextOf le with
        | none => acc
        | some t => if t = "" then acc else addOnce acc (strTrim t))
    []

/-- Source `get_existing_job_links()`: absent file gives the empty set;
unparseable content degrades to the empty set; otherwise the parsed items'
links. -/
def get_existing_job_links (feedContent : Option String) : List String :=
  match feedContent with
  | none => []
  | some s =>
    match parseXmlChars s.toList with
    | none => []
    | some root => extractFeedLinks root

/-! ## Pipeline (`main`, source lines 273-302) -/

/-- The dedup filter of `main` (source line 281): jobs whose link is not
previously known, in scrape order. -/
def newJobsOf (all : List Job) (known : List String) : List Job :=
  all.filter fun j => !known.contains j.link

/-- Source `main()` (source lines 273-302): read prior identities, scrape,
keep jobs whose link is not previously known, and write — the new feed if
anything is new, an empty feed if nothing is new and no feed file exists,
nothing otherwise. The result is the written file content (`none` = no
write). -/
def mainRun (page : Option (List HNode)) (priorFeed : Option String)
    (now : String) : Option String :=
  let existing := get_existing_job_links priorFeed
  let all := scrape_worldbank_jobs page
  let newJobs := newJobsOf all existing
  if !newJobs.isEmpty then some (generate_rss_feed now newJobs)
  else
    match priorFeed with
    | some _ => none
    | none => some (generate_rss_feed now [])

/-! ## Shared concrete inputs for witness and counterexample runs -/

/-- A first concrete job, exactly as the normalizer produces it. -/
def jX : Job :=
  { title := "Alpha Role Engineer",
    link := "https://worldbankgroup.csod.com/jobs/x1",
    location := "Washington, DC", department := "",
    description := buildDescription "Alpha Role Engineer" "" "Washington, DC" }

/-- A second concrete job. -/
def jY : Job :=
  { title := "Beta Data Analyst",
    link := "https://worldbankgroup.csod.com/jobs/x2",
    location := "Washington, DC", department := "",
    description := buildDescription "Beta Data Analyst" "" "Washington, DC" }

/-- A concrete run timestamp. -/
def now0 : String := "Mon, 06 Jan 2025 00:00:00 GMT"

/-- A later run timestamp. -/
def now1 : String := "Tue, 07 Jan 2025 00:00:00 GMT"

/-! ## Supporting lemmas -/

/-! ## Claim C2 — identity derivation (`generate_numeric_id`) -/

/-! ## Claim C4 — title rejection -/

/-! ## Claim C5 — link normalization -/

/-! ## Claim C6 — reading prior identities never aborts -/

/-! ## Claim C3 — the strategy cascade -/

mutual

/-- Boolean node equality (the nested tree rules out a derived instance). -/
def beqH : HNode → HNode → Bool
  | .tx s, .tx t => s == t
  | .el t1 a1 c1, .el t2 a2 c2 => t1 == t2 && a1 == a2 && beqF c1 c2
  | _, _ => false

/-- Boolean forest equality. -/
def beqF : List HNode → List HNode → Bool
  | [], [] => true
  | x :: xs, y :: ys => beqH x y && beqF xs ys
  | _, _ => false

end

/-- Modelled from the spec: the structural-heuristic strategy as the spec
words it — container elements that contain both a heading-or-link element
and a SEPARATE link-with-href, i.e. two distinct descendant nodes (the
source's `scrape_worldbank_jobs` strategy 3 runs two independent `find`
calls that may return the same node). -/
def strategy3Spec (doc : List HNode) : List HNode :=
  (subForest doc).filter fun n =>
    ["div", "article"].contains (tagOf n) &&
    (((strictDescs n).filter fun m =>
        ["h2", "h3", "h4", "a"].contains (tagOf m)).any fun h =>
      ((strictDescs n).filter fun m =>
          tagOf m == "a" && (attrOf m "href").isSome).any fun l => !beqH h l)

/-- A document strategy 1 succeeds on. -/
def docS1 : List HNode := [.el "div" [("class", "job-card")] []]

/-- A document only strategy 2 succeeds on. -/
def docS2 : List HNode :=
  [.el "a" [("href", "/requisition/1")] [.tx "Senior Economist"]]

/-- A document reaching strategy 3, whose single container holds one anchor
that is simultaneously the heading-or-link and the link-with-href. -/
def docS3 : List HNode := [.el "div" [] [.el "a" [("href", "x")] [.tx "Job"]]]

/-! ## Claim C1 — deduplication partitions by known links -/

/-- A rendered page whose two candidates normalize to the jobs `jX`, `jY`. -/
def docXY : List HNode :=
  [.el "div" [("class", "job-card")]
     [.el "a" [("href", "/jobs/x1")] [.tx "Alpha Role Engineer"]],
   .el "div" [("class", "job-card")]
     [.el "a" [("href", "/jobs/x2")] [.tx "Beta Data Analyst"]]]

/-! ## Claim C9 — behavior when the render step fails -/

/-! ## Line-structure lemmas for the serializer -/

/-- Lines joined with one trailing newline each — the shape `minidom`'s
`writexml` produces chunk by chunk. -/
def linesJoin (ls : List (List Char)) : List Char :=
  ls.flatMap fun l => l ++ ['\n']

/-! ## Chunk view of the serialized feed

The written document is organized in two equal ways: as pretty-printed
lines (for the blank-line and indentation properties) and as nested element
chunks (for the parser). Both are proved equal to the serializer output. -/

/-- An indent of `n` spaces. -/
def sp (n : Nat) : List Char := List.replicate n ' '

/-- A newline followed by an `n`-space indent. -/
def nlsp (n : Nat) : List Char := '\n' :: sp n

/-- An opening tag `<t ats>`. -/
def openChunk (t ats : List Char) : List Char := '<' :: ((t ++ ats) ++ ['>'])

/-- A closing tag `</t>`. -/
def closeChunk (t : List Char) : List Char := '<' :: '/' :: (t ++ ['>'])

/-- A self-closing tag `<t ats/>`. -/
def selfChunk (t ats : List Char) : List Char := '<' :: ((t ++ ats) ++ ['/', '>'])

/-- A full element `<t ats>inner</t>`. -/
def elemChunk (t ats inner : List Char) : List Char :=
  openChunk t ats ++ inner ++ closeChunk t

/-- An element holding text content `s` — self-closing when `s` is empty,
mirroring how ElementTree treats empty `.text`. -/
def textElemChunk (t ats : List Char) (s : String) : List Char :=
  if s = "" then selfChunk t ats else elemChunk t ats (esc s.toList)

/-- The parse of `textElemChunk`. -/
def textElemP (t : List Char) (s : String) : PNode :=
  if s = "" then .pel t [] else .pel t [.ptext s]

/-- Rendered attributes of the `guid` element. -/
def guidAts : List Char := attrsChars [("isPermaLink", "false")]

/-- Rendered attributes of the `source` element. -/
def srcAts : List Char := attrsChars [("url", "https://worldbankgroup.csod.com/")]

/-- Rendered attributes of the `rss` element. -/
def rssAts : List Char :=
  attrsChars [("xmlns:dc", "http://purl.org/dc/elements/1.1/"), ("version", "2.0"),
    ("xml:base", "https://worldbankgroup.csod.com/")]

/-- One item as an element chunk. -/
def itemChunk (now : String) (j : Job) : List Char :=
  elemChunk "item".toList []
    (nlsp 6 ++ textElemChunk "title".toList [] j.title ++
     (nlsp 6 ++ textElemChunk "link".toList [] j.link ++
      (nlsp 6 ++ textElemChunk "description".toList [] j.description ++
       (nlsp 6 ++ textElemChunk "guid".toList guidAts (generate_numeric_id j.link) ++
        (nlsp 6 ++ textElemChunk "pubDate".toList [] now ++
         (nlsp 6 ++ textElemChunk "source".toList srcAts "World Bank Group Job Vacancies" ++
          nlsp 4))))))

/-- One item as the parser sees it (indentation runs become text nodes). -/
def itemP (now : String) (j : Job) : PNode :=
  .pel "item".toList
    [.ptext (nlsp 6).asString, textElemP "title".toList j.title,
     .ptext (nlsp 6).asString, textElemP "link".toList j.link,
     .ptext (nlsp 6).asString, textElemP "description".toList j.description,
     .ptext (nlsp 6).asString, textElemP "guid".toList (generate_numeric_id j.link),
     .ptext (nlsp 6).asString, textElemP "pubDate".toList now,
     .ptext (nlsp 6).asString,
     textElemP "source".toList "World Bank Group Job Vacancies",
     .ptext (nlsp 4).asString]

/-- The channel content as one character run. -/
def channelInner (now : String) (jobs : List Job) : List Char :=
  nlsp 4 ++ textElemChunk "title".toList [] "World Bank Group Job Vacancies" ++
  (nlsp 4 ++ textElemChunk "link".toList [] "https://worldbankgroup.csod.com/" ++
   (nlsp 4 ++ textElemChunk "description".toList []
      "List of vacancies at the World Bank Group" ++
    (nlsp 4 ++ textElemChunk "language".toList [] "en" ++
     (nlsp 4 ++ textElemChunk "pubDate".toList [] now ++
      ((jobs.flatMap fun j => nlsp 4 ++ itemChunk now j) ++ nlsp 2)))))

/-- The channel children as the parser sees them. -/
def channelKidsP (now : String) (jobs : List Job) : List PNode :=
  [.ptext (nlsp 4).asString, textElemP "title".toList "World Bank Group Job Vacancies",
   .ptext (nlsp 4).asString, textElemP "link".toList "https://worldbankgroup.csod.com/",
   .ptext (nlsp 4).asString,
   textElemP "description".toList "List of vacancies at the World Bank Group",
   .ptext (nlsp 4).asString, textElemP "language".toList "en",
   .ptext (nlsp 4).asString, textElemP "pubDate".toList now] ++
  (jobs.flatMap fun j => [.ptext (nlsp 4).asString, itemP now j]) ++
  [.ptext (nlsp 2).asString]

/-- The XML declaration characters. -/
def declChars : List Char := "<?xml version=\"1.0\" ?>".toList

/-- The whole written document as one character run. -/
def docChunk (now : String) (jobs : List Job) : List Char :=
  declChars ++ '\n' ::
    elemChunk "rss".toList rssAts
      (nlsp 2 ++ elemChunk "channel".toList [] (channelInner now jobs) ++ nlsp 0)

/-- The parse of the whole written document. -/
def parsedFeed (now : String) (jobs : List Job) : PNode :=
  .pel "rss".toList
    [.ptext (nlsp 2).asString, .pel "channel".toList (channelKidsP now jobs),
     .ptext (nlsp 0).asString]

/-! ## Line view of the serialized feed -/

/-- A pretty-printed line holding an opening tag. -/
def openLine (ind : Nat) (t ats : List Char) : List Char := sp ind ++ openChunk t ats

/-- A pretty-printed line holding a closing tag. -/
def closeLine (ind : Nat) (t : List Char) : List Char := sp ind ++ closeChunk t

/-- A pretty-printed line holding a text element. -/
def inlineLine (ind : Nat) (t ats : List Char) (s : String) : List Char :=
  sp ind ++ textElemChunk t ats s

/-- The pretty-printed lines of one item. -/
def itemLines (now : String) (j : Job) : List (List Char) :=
  [openLine 4 "item".toList [],
   inlineLine 6 "title".toList [] j.title,
   inlineLine 6 "link".toList [] j.link,
   inlineLine 6 "description".toList [] j.description,
   inlineLine 6 "guid".toList guidAts (generate_numeric_id j.link),
   inlineLine 6 "pubDate".toList [] now,
   inlineLine 6 "source".toList srcAts "World Bank Group Job Vacancies",
   closeLine 4 "item".toList]

/-- The pretty-printed lines of the whole document. -/
def feedLines (now : String) (jobs : List Job) : List (List Char) :=
  declChars :: openLine 0 "rss".toList rssAts :: openLine 2 "channel".toList [] ::
  inlineLine 4 "title".toList [] "World Bank Group Job Vacancies" ::
  inlineLine 4 "link".toList [] "https://worldbankgroup.csod.com/" ::
  inlineLine 4 "description".toList [] "List of vacancies at the World Bank Group" ::
  inlineLine 4 "language".toList [] "en" ::
  inlineLine 4 "pubDate".toList [] now ::
  (jobs.flatMap (itemLines now) ++
    [closeLine 2 "channel".toList, closeLine 0 "rss".toList])

/-! ## Hygiene hypotheses -/

/-- A text field that keeps the pretty document line-per-element: free of
newlines. -/
def textOk (s : String) : Bool := !s.toList.contains '\n'

/-- A link fit for round-tripping: non-empty and whitespace-free (as an
absolute URL is). -/
def linkOk (s : String) : Bool := !s.isEmpty && s.toList.all fun c => !c.isWhitespace

/-- A job whose text fields are line-clean and whose link round-trips. -/
def jobOk (j : Job) : Bool := linkOk j.link && textOk j.title && textOk j.description

/-! ## Parser composition predicates -/

/-- Chunk `a` parses as the single node `n`, leaving any suffix, at any
sufficient fuel. -/
def POneE (a : List Char) (n : PNode) : Prop :=
  ∀ f rest, a.length ≤ f → parseOne f (a ++ rest) = some (n, rest)

/-- Like `POneE` for a text run, which additionally needs the suffix to
start at markup (or end) so that the run does not overshoot. -/
def POneT (a : List Char) (n : PNode) : Prop :=
  ∀ f rest, a.length ≤ f → (rest = [] ∨ headIs rest '<' = true) →
    parseOne f (a ++ rest) = some (n, rest)

/-- The sibling-stop condition of `parseNodes`. -/
def stopOk (cs : List Char) : Bool := cs.isEmpty || (headIs cs '<' && headIs cs.tail '/')

/-- Chunk `b` parses as the sibling sequence `ns` before a stop, at any
sufficient fuel. -/
def PSeq (b : List Char) (ns : List PNode) : Prop :=
  ∀ f rest, b.length + 1 ≤ f → stopOk rest = true →
    parseNodes f (b ++ rest) = some (ns, rest)

/-! ## Parser composition lemmas -/

/-! ## The serializer output in line and chunk form -/

/-! ## Hygiene of the pretty lines -/

/-! ## Extraction from the parsed feed -/

/-- The item filter of `findItems`. -/
def isItemTag (n : PNode) : Bool :=
  match n with
  | .pel t _ => t == "item".toList
  | .ptext _ => false

/-- A scraped job whose link carries a trailing space (nothing in the
normalizer forbids it: `href` attribute values are used as-is after prefix
normalization, source lines 129-148). -/
def jobC7 : Job :=
  { title := "Gamma Policy Officer",
    link := "https://worldbankgroup.csod.com/jobs/x1 ",
    location := "Washington, DC", department := "",
    description := "Role" }

/-- A line body that is a closing tag: starts with the two characters of a
close marker. -/
def startsClose : List Char → Bool
  | c1 :: c2 :: _ => c1 == '<' && c2 == '/'
  | _ => false

/-- A line body that is a self-closing tag: its last two characters close
the element in place. -/
def endsSelf (l : List Char) : Bool :=
  List.isPrefixOf ['>', '/'] l.reverse

/-- The leading-space count of a pretty-printed line. -/
def lineIndent (l : List Char) : Nat := (l.takeWhile fun c => c == ' ').length

/-- Scan pretty-printed lines (the declaration line excluded) at nesting
depth `d`, requiring 2 spaces of indent per level: a closing line sits at
`2 * (d - 1)` and pops, a one-line element (holding its own close marker or
self-closing) sits at `2 * d`, and any other tag line opens a level. -/
def indentScan : Nat → List (List Char) → Bool
  | d, [] => d == 0
  | d, l :: rest =>
    if startsClose (l.drop (lineIndent l)) then
      decide (1 ≤ d) && (lineIndent l == 2 * (d - 1)) && indentScan (d - 1) rest
    else if isSubChars ['<', '/'] (l.drop (lineIndent l))
        || endsSelf (l.drop (lineIndent l)) then
      (lineIndent l == 2 * d) && indentScan d rest
    else
      (lineIndent l == 2 * d) && indentScan (d + 1) rest

/-- A document is two-space indented when its lines after the declaration
line scan from depth 0 back to depth 0. -/
def indentedTwo (ls : List (List Char)) : Bool :=
  match ls with
  | [] => false
  | _ :: rest => indentScan 0 rest

/-- A scraped job whose title carries an embedded newline (nothing in the
normalizer forbids it: `get_text(strip=True)` strips only the ends). -/
def jobC8 : Job :=
  { title := "Econ\nNomad Officer",
    link := "https://worldbankgroup.csod.com/jobs/x3",
    location := "Washington, DC", department := "",
    description := "Role" }

/-- The expected parse of the empty feed: the full channel block — title,
link, description, language and the publish timestamp — and no `item`
element anywhere. -/
def emptyFeedP (now : String) : PNode :=
  .pel "rss".toList
    [.ptext (nlsp 2).asString,
     .pel "channel".toList
       [.ptext (nlsp 4).asString,
        textElemP "title".toList "World Bank Group Job Vacancies",
        .ptext (nlsp 4).asString,
        textElemP "link".toList "https://worldbankgroup.csod.com/",
        .ptext (nlsp 4).asString,
        textElemP "description".toList "List of vacancies at the World Bank Group",
        .ptext (nlsp 4).asString, textElemP "language".toList "en",
        .ptext (nlsp 4).asString, textElemP "pubDate".toList now,
        .ptext (nlsp 2).asString],
     .ptext (nlsp 0).asString]

/-! ## Theorems -/

theorem isSubChars_iff (pat cs : List Char) :
    isSubChars pat cs = true ↔ pat <:+: cs := by
  induction cs with
  | nil =>
    simp only [isSubChars, List.isEmpty_iff, List.infix_nil]
  | cons c rest ih =>
    simp only [isSubChars, Bool.or_eq_true, ih, List.isPrefixOf_iff_prefix,
      List.infix_cons_iff]

theorem digitChar_isDigit (m : Nat) (h : m < 10) :
    (Char.ofNat (48 + m)).isDigit = true := by
  interval_cases m <;> decide

theorem natDigitsAux_all_digits (f : Nat) :
    ∀ n, (natDigitsAux f n).all Char.isDigit = true := by
  induction f with
  | zero => intro n; rfl
  | succ f ih =>
    intro n
    by_cases h : n < 10
    · simp [natDigitsAux, h, digitChar_isDigit n h]
    · simp [natDigitsAux, h, List.all_append, ih (n / 10),
        digitChar_isDigit (n % 10) (Nat.mod_lt n (by omega))]

theorem natDigitsAux_length_le (f : Nat) :
    ∀ n k, n < f → n < 10 ^ k → 1 ≤ k → (natDigitsAux f n).length ≤ k := by
  induction f with
  | zero => intro n k h; omega
  | succ f ih =>
    intro n k hf hk hk1
    by_cases h : n < 10
    · simp [natDigitsAux, h]; omega
    · have hdiv : n / 10 < f := by
        have h1 : n / 10 < n := Nat.div_lt_self (by omega) (by omega)
        omega
      have hk2 : 2 ≤ k := by
        by_contra hcon
        have : k = 1 := by omega
        subst this
        simp at hk
        omega
      have hpow : 10 ^ (k - 1) * 10 = 10 ^ k := by
        rw [← pow_succ]
        congr 1
        omega
      have hten : n / 10 < 10 ^ (k - 1) :=
        (Nat.div_lt_iff_lt_mul (by omega)).mpr (by omega)
      have := ih (n / 10) (k - 1) hdiv hten (by omega)
      simp [natDigitsAux, h, List.length_append]
      omega

/-- C2 counterexample: the id of this link is `"9598256"`, only 7 characters
long, so the derived id is not always an 8-digit numeral (the value is
reduced modulo `10 ^ 8` but not zero-padded). -/
theorem C2_id_not_always_eight_digits :
    generate_numeric_id "https://worldbankgroup.csod.com/jobs/x1" = "9598256" ∧
    (generate_numeric_id "https://worldbankgroup.csod.com/jobs/x1").length ≠ 8 := by
  constructor
  · decide
  · decide

/-- C2 (amended): the derived identity is a pure deterministic function of
the link alone, computed as the md5 hash of the link truncated to 12 hex
digits and reduced modulo `10 ^ 8`; the result is a numeric id of at most
8 digits. -/
theorem C2_numeric_id_amended :
    (∀ u v : String, u = v → generate_numeric_id u = generate_numeric_id v) ∧
    (∀ u : String,
      generate_numeric_id u = natStr (hexToNat ((md5HexOf u).take 12) % 100000000)) ∧
    (∀ u : String, numericIdVal u < 100000000) ∧
    (∀ u : String, (generate_numeric_id u).length ≤ 8 ∧
      (generate_numeric_id u).toList.all Char.isDigit = true) := by
  refine ⟨fun u v h => by rw [h], fun u => rfl, fun u => Nat.mod_lt _ (by omega), fun u => ⟨?_, ?_⟩⟩
  · show (natStr (numericIdVal u)).length ≤ 8
    have hlt : numericIdVal u < 100000000 := Nat.mod_lt _ (by omega)
    exact natDigitsAux_length_le (numericIdVal u + 1) (numericIdVal u) 8
      (by omega) (by norm_num at hlt ⊢; omega) (by omega)
  · exact natDigitsAux_all_digits _ _

/-- C2 witness: the amended theorem applied at a concrete link. -/
theorem C2_numeric_id_amended_witness :
    generate_numeric_id "https://example.com/a" = generate_numeric_id "https://example.com/a" ∧
    numericIdVal "https://example.com/a" < 100000000 ∧
    (generate_numeric_id "https://example.com/a").length ≤ 8 :=
  ⟨C2_numeric_id_amended.1 _ _ rfl, C2_numeric_id_amended.2.2.1 _,
    (C2_numeric_id_amended.2.2.2 _).1⟩

/-- C4: a candidate title is rejected exactly when it is empty, shorter than
5 characters, or contains a stoplist term case-insensitively as a substring;
`"Search"` and `"Se"` are rejected, `"Economist II"` is accepted. -/
theorem C4_title_rejection :
    (∀ t : String, titleRejected t = true ↔
      t = "" ∨ t.length < 5 ∨
        ∃ k ∈ skipKeywords, k.toList <:+: (strLower t).toList) ∧
    titleRejected "Search" = true ∧ titleRejected "Se" = true ∧
    titleRejected "Economist II" = false := by
  refine ⟨fun t => ?_, by decide, by decide, by decide⟩
  simp only [titleRejected, Bool.or_eq_true, List.any_eq_true, strContains,
    isSubChars_iff, decide_eq_true_eq, String.isEmpty_iff]
  tauto

/-- C5: an href already starting with `http` is kept unchanged, one starting
with `/` is prefixed with the site origin, and any other is prefixed with
the careers listing path; `"/job/123"` maps to the origin-prefixed URL. -/
theorem C5_link_normalization :
    (∀ h : String, strStarts h "http" = true → normalizeHref h = h) ∧
    (∀ h : String, strStarts h "http" = false → strStarts h "/" = true →
      normalizeHref h = "https://worldbankgroup.csod.com" ++ h) ∧
    (∀ h : String, strStarts h "http" = false → strStarts h "/" = false →
      normalizeHref h = "https://worldbankgroup.csod.com/ux/ats/careersite/1/" ++ h) ∧
    normalizeHref "/job/123" = "https://worldbankgroup.csod.com/job/123" := by
  refine ⟨fun h h1 => ?_, fun h h1 h2 => ?_, fun h h1 h2 => ?_, by decide⟩
  · simp [normalizeHref, h1]
  · simp [normalizeHref, h1, h2]
  · simp [normalizeHref, h1, h2]

/-- C5 witness: each normalization branch at a concrete href. -/
theorem C5_link_normalization_witness :
    normalizeHref "http://x" = "http://x" ∧
    normalizeHref "/a" = "https://worldbankgroup.csod.com" ++ "/a" ∧
    normalizeHref "req1" = "https://worldbankgroup.csod.com/ux/ats/careersite/1/" ++ "req1" :=
  ⟨C5_link_normalization.1 "http://x" (by decide),
   C5_link_normalization.2.1 "/a" (by decide) (by decide),
   C5_link_normalization.2.2.1 "req1" (by decide) (by decide)⟩

/-- C6: an absent prior feed yields the empty identity set; content the
parser rejects degrades to the empty identity set; and with an empty known
set every scraped job is new. -/
theorem C6_prior_feed_degrades :
    (get_existing_job_links none = []) ∧
    (∀ s : String, parseXmlChars s.toList = none →
      get_existing_job_links (some s) = []) ∧
    (∀ jobs : List Job, newJobsOf jobs [] = jobs) := by
  refine ⟨rfl, fun s h => ?_, fun jobs => ?_⟩
  · simp only [String.toList] at h
    simp [get_existing_job_links, h]
  · simp [newJobsOf]

/-- C6 witness: concrete malformed feed contents degrade to the empty set. -/
theorem C6_prior_feed_degrades_witness :
    get_existing_job_links (some "hello") = [] ∧
    get_existing_job_links (some "<rss><channel>") = [] :=
  ⟨C6_prior_feed_degrades.2.1 "hello" rfl,
   C6_prior_feed_degrades.2.1 "<rss><channel>" rfl⟩

/-- C3 counterexample: with strategies 1 and 2 empty, the code's structural
strategy collects a container whose heading-or-link element and
link-with-href element are the SAME anchor, which the claim's
separate-elements reading excludes. -/
theorem C3_structural_no_separateness :
    strategy1 docS3 = [] ∧ strategy2 docS3 = [] ∧
    locateCandidates docS3 = [.el "div" [] [.el "a" [("href", "x")] [.tx "Job"]]] ∧
    strategy3Spec docS3 = [] :=
  ⟨rfl, rfl, rfl, rfl⟩

/-- C3 (amended): candidate location runs the three strategies in fixed
priority order and returns the first non-empty result with no merging; the
structural strategy collects exactly the `div`/`article` elements having a
heading-or-link descendant and an anchor-with-href descendant (the two may
be the same element). -/
theorem C3_strategy_cascade :
    (∀ doc : List HNode,
      (strategy1 doc ≠ [] → locateCandidates doc = strategy1 doc) ∧
      (strategy1 doc = [] → strategy2 doc ≠ [] →
        locateCandidates doc = strategy2 doc) ∧
      (strategy1 doc = [] → strategy2 doc = [] →
        locateCandidates doc = strategy3 doc)) ∧
    (∀ (doc : List HNode) (n : HNode), n ∈ strategy3 doc ↔ n ∈ subForest doc ∧
      (["div", "article"].contains (tagOf n) && hasTitleLike n && hasHrefAnchor n)
        = true) := by
  refine ⟨fun doc => ⟨fun h => ?_, fun h1 h2 => ?_, fun h1 h2 => ?_⟩,
    fun doc n => List.mem_filter⟩
  · simp only [locateCandidates]
    rw [if_neg (by simpa using h)]
  · simp only [locateCandidates]
    rw [if_pos (by simpa using h1), if_neg (by simpa using h2)]
  · simp only [locateCandidates]
    rw [if_pos (by simpa using h1), if_pos (by simpa using h2)]

/-- C3 witness: each cascade branch at a concrete document. -/
theorem C3_strategy_cascade_witness :
    locateCandidates docS1 = strategy1 docS1 ∧
    locateCandidates docS2 = strategy2 docS2 ∧
    locateCandidates docS3 = strategy3 docS3 :=
  ⟨(C3_strategy_cascade.1 docS1).1
      (by rw [show strategy1 docS1 = [HNode.el "div" [("class", "job-card")] []] from rfl]
          exact List.cons_ne_nil _ _),
   (C3_strategy_cascade.1 docS2).2.1 rfl
      (by rw [show strategy2 docS2 =
            [HNode.el "a" [("href", "/requisition/1")] [.tx "Senior Economist"]] from rfl]
          exact List.cons_ne_nil _ _),
   (C3_strategy_cascade.1 docS3).2.2 rfl rfl⟩

/-- C1: the dedup step is a pure order-preserving partition — a job is new
iff its link is not previously known, the new and known parts are
subsequences of the input and partition its length; and in the concrete
prior-feed-X, candidates-X-and-Y run, the written feed contains only Y. -/
theorem C1_dedup_partition :
    (∀ (all : List Job) (known : List String) (j : Job),
      j ∈ newJobsOf all known ↔ j ∈ all ∧ j.link ∉ known) ∧
    (∀ (all : List Job) (known : List String),
      (newJobsOf all known).Sublist all ∧
      (all.filter fun j => known.contains j.link).Sublist all ∧
      (newJobsOf all known).length +
        (all.filter fun j => known.contains j.link).length = all.length) ∧
    (scrape_worldbank_jobs (some docXY) = [jX, jY] ∧
     mainRun (some docXY) (some (generate_rss_feed now0 [jX])) now1 =
       some (generate_rss_feed now1 [jY]) ∧
     get_existing_job_links (some (generate_rss_feed now1 [jY])) =
       ["https://worldbankgroup.csod.com/jobs/x2"]) := by
  refine ⟨fun all known j => ?_, fun all known => ⟨List.filter_sublist all,
    List.filter_sublist all, ?_⟩, rfl, rfl, rfl⟩
  · simp [newJobsOf, List.mem_filter]
  · induction all with
    | nil => rfl
    | cons j rest ih =>
      by_cases h : j.link ∈ known
      · simp [newJobsOf, List.filter_cons, h] at ih ⊢
        omega
      · simp [newJobsOf, List.filter_cons, h] at ih ⊢
        omega

/-- C9 counterexample: when the render step raises and no feed file exists,
`main` does not abort — it reaches the empty-feed branch and performs a
write, so "no write occurs in that run" fails. -/
theorem C9_render_failure_writes :
    mainRun none none now0 = some (generate_rss_feed now0 []) ∧
    mainRun none none now0 ≠ none := by
  refine ⟨rfl, ?_⟩
  rw [show mainRun none none now0 = some (generate_rss_feed now0 []) from rfl]
  simp

/-- C9 (amended): a render failure is caught inside the scraper, which
returns zero jobs, and the run completes normally; an existing feed file is
then left unchanged (no write), but when no feed file exists the run writes
a fresh empty feed. -/
theorem C9_render_failure_amended :
    scrape_worldbank_jobs none = [] ∧
    (∀ s now : String, mainRun none (some s) now = none) ∧
    (∀ now : String, mainRun none none now = some (generate_rss_feed now [])) := by
  refine ⟨rfl, fun s now => ?_, fun now => rfl⟩
  simp [mainRun, scrape_worldbank_jobs, newJobsOf]

theorem splitNL_no_nl (a : List Char) (h : '\n' ∉ a) : splitNL a = [a] := by
  induction a with
  | nil => rfl
  | cons c rest ih =>
    simp only [List.mem_cons, not_or] at h
    have hc : ¬(c = '\n') := fun e => h.1 e.symm
    simp [splitNL, ih h.2, hc]

theorem splitNL_append_nl (a b : List Char) (h : '\n' ∉ a) :
    splitNL (a ++ '\n' :: b) = a :: splitNL b := by
  induction a with
  | nil => simp [splitNL]
  | cons c rest ih =>
    simp only [List.mem_cons, not_or] at h
    have hc : ¬(c = '\n') := fun e => h.1 e.symm
    simp [splitNL, ih h.2, hc]

theorem splitNL_linesJoin (ls : List (List Char))
    (h : ∀ l ∈ ls, '\n' ∉ l) :
    splitNL (linesJoin ls) = ls ++ [[]] := by
  induction ls with
  | nil => rfl
  | cons l rest ih =>
    have h1 : '\n' ∉ l := h l (by simp)
    simp only [linesJoin, List.flatMap_cons, List.append_assoc,
      List.singleton_append]
    rw [splitNL_append_nl l _ h1]
    simp only [linesJoin] at ih
    rw [ih fun x hx => h x (by simp [hx])]
    simp

theorem joinNL_cons_cons (l : List Char) (x : List Char) (rest : List (List Char)) :
    joinNL (l :: x :: rest) = l ++ '\n' :: joinNL (x :: rest) := rfl

theorem linesJoin_eq_joinNL (ls : List (List Char)) (h : ls ≠ []) :
    linesJoin ls = joinNL ls ++ ['\n'] := by
  induction ls with
  | nil => cases h rfl
  | cons l rest ih =>
    cases rest with
    | nil => simp [linesJoin, joinNL]
    | cons x xs =>
      rw [joinNL_cons_cons]
      simp only [linesJoin, List.flatMap_cons] at ih ⊢
      rw [ih (by simp)]
      simp

/-- A character that is not whitespace keeps its line non-blank. -/
theorem isBlankLine_false_of_mem (l : List Char) (c : Char) (hc : c ∈ l)
    (hw : ¬c.isWhitespace) : isBlankLine l = false := by
  rw [isBlankLine, trimChars]
  by_contra h
  simp only [Bool.not_eq_false, List.isEmpty_iff, List.reverse_eq_nil_iff] at h
  have h2 : ∀ x ∈ (l.dropWhile Char.isWhitespace).reverse, x.isWhitespace := by
    intro x hx
    simpa using List.dropWhile_eq_nil_iff.mp h x hx
  have h3 : ∀ x ∈ l, x.isWhitespace := by
    intro x hx
    rcases List.mem_append.mp
      ((List.takeWhile_append_dropWhile (p := Char.isWhitespace) (l := l)) ▸ hx)
      with h4 | h4
    · exact List.mem_takeWhile_imp h4
    · exact h2 x (by simpa using h4)
  exact hw (h3 c hc)

theorem trimChars_no_ws (l : List Char) (h : ∀ c ∈ l, ¬c.isWhitespace) :
    trimChars l = l := by
  have h1 : l.dropWhile Char.isWhitespace = l := by
    rw [List.dropWhile_eq_self_iff]
    intro hl hw
    exact h _ (List.getElem_mem hl) hw
  have h2 : l.reverse.dropWhile Char.isWhitespace = l.reverse := by
    rw [List.dropWhile_eq_self_iff]
    intro hl hw
    have hm : l.reverse[0] ∈ l.reverse := List.getElem_mem hl
    rw [List.mem_reverse] at hm
    exact h _ hm hw
  rw [trimChars, h1, h2, List.reverse_reverse]

theorem headIs_append (l x : List Char) (c : Char) (h : l ≠ []) :
    headIs (l ++ x) c = headIs l c := by
  cases l with
  | nil => cases h rfl
  | cons a l2 => rfl

theorem takeUntilLt_split (a rest : List Char) (h : '<' ∉ a)
    (hr : rest = [] ∨ headIs rest '<' = true) :
    takeUntilLt (a ++ rest) = (a, rest) := by
  induction a with
  | nil =>
    rcases hr with rfl | hr
    · rfl
    · cases rest with
      | nil => rfl
      | cons c r =>
        simp only [headIs, decide_eq_true_eq] at hr
        subst hr
        simp [takeUntilLt]
  | cons c a2 ih =>
    have hc : ¬(c = '<') := fun e => h (e ▸ List.mem_cons_self c a2)
    simp only [List.mem_cons, not_or] at h
    simp [takeUntilLt, hc, ih h.2]

theorem esc_cons (c : Char) (r : List Char) : esc (c :: r) = escChar c ++ esc r := rfl

theorem escChar_cases (c : Char) :
    escChar c = ['&', 'a', 'm', 'p', ';'] ∨ escChar c = ['&', 'l', 't', ';'] ∨
    escChar c = ['&', 'g', 't', ';'] ∨
    (escChar c = [c] ∧ c ≠ '&' ∧ c ≠ '<' ∧ c ≠ '>') := by
  by_cases h1 : c = '&'
  · left; simp [escChar, h1]
  · by_cases h2 : c = '<'
    · right; left; simp [escChar, h1, h2]
    · by_cases h3 : c = '>'
      · right; right; left; simp [escChar, h1, h2, h3]
      · right; right; right; exact ⟨by simp [escChar, h1, h2, h3], h1, h2, h3⟩

theorem esc_not_lt (cs : List Char) : '<' ∉ esc cs := by
  intro hm
  rw [esc] at hm
  obtain ⟨c, _, hc⟩ := List.mem_flatMap.mp hm
  rcases escChar_cases c with h | h | h | ⟨h, _, h2, _⟩ <;> rw [h] at hc <;> simp_all
  exact h2 hc.symm

theorem esc_no_nl (cs : List Char) (h : '\n' ∉ cs) : '\n' ∉ esc cs := by
  intro hm
  rw [esc] at hm
  obtain ⟨c, hcm, hc⟩ := List.mem_flatMap.mp hm
  rcases escChar_cases c with he | he | he | ⟨he, _, _, _⟩ <;> rw [he] at hc <;>
    simp_all
  exact h (hc ▸ hcm)

theorem esc_ne_nil (cs : List Char) (h : cs ≠ []) : esc cs ≠ [] := by
  cases cs with
  | nil => cases h rfl
  | cons c r =>
    rw [esc_cons]
    rcases escChar_cases c with he | he | he | ⟨he, _, _, _⟩ <;> rw [he] <;> simp

theorem unesc_cons_ne (c : Char) (r : List Char) (h : ¬(c = '&')) :
    unesc (c :: r) = c :: unesc r := by
  conv_lhs => unfold unesc
  rw [if_neg h]

theorem unesc_amp (r : List Char) :
    unesc ('&' :: 'a' :: 'm' :: 'p' :: ';' :: r) = '&' :: unesc r := by
  conv_lhs => unfold unesc
  rfl

theorem unesc_lt (r : List Char) :
    unesc ('&' :: 'l' :: 't' :: ';' :: r) = '<' :: unesc r := by
  conv_lhs => unfold unesc
  rfl

theorem unesc_gt (r : List Char) :
    unesc ('&' :: 'g' :: 't' :: ';' :: r) = '>' :: unesc r := by
  conv_lhs => unfold unesc
  rfl

theorem unesc_esc (cs : List Char) : unesc (esc cs) = cs := by
  induction cs with
  | nil => rfl
  | cons c r ih =>
    rw [esc_cons]
    by_cases h1 : c = '&'
    · subst h1
      rw [show escChar '&' = ['&', 'a', 'm', 'p', ';'] from rfl]
      simpa [unesc_amp] using ih
    · by_cases h2 : c = '<'
      · subst h2
        rw [show escChar '<' = ['&', 'l', 't', ';'] from rfl]
        simpa [unesc_lt] using ih
      · by_cases h3 : c = '>'
        · subst h3
          rw [show escChar '>' = ['&', 'g', 't', ';'] from rfl]
          simpa [unesc_gt] using ih
        · rw [show escChar c = [c] by simp [escChar, h1, h2, h3]]
          simpa [unesc_cons_ne c _ h1] using ih

theorem unesc_no_amp (a : List Char) (h : '&' ∉ a) : unesc a = a := by
  induction a with
  | nil => rfl
  | cons c r ih =>
    simp only [List.mem_cons, not_or] at h
    have hc : ¬(c = '&') := fun e => h.1 e.symm
    rw [unesc_cons_ne c r hc, ih h.2]

theorem parseOne_cons (f : Nat) (c : Char) (r : List Char) :
    parseOne (f + 1) (c :: r) =
      if c = '<' then
        if headIs r '/' then none
        else
          if (r.takeWhile nameChar).isEmpty then none
          else
            match skipAttrsToGt (r.dropWhile nameChar) with
            | none => none
            | some (true, rest) => some (.pel (r.takeWhile nameChar) [], rest)
            | some (false, rest) =>
              match parseNodes f rest with
              | none => none
              | some (kids, rest2) =>
                match closeTagRest (r.takeWhile nameChar) rest2 with
                | none => none
                | some rest3 => some (.pel (r.takeWhile nameChar) kids, rest3)
      else
        some (.ptext (unesc (takeUntilLt (c :: r)).1).asString, (takeUntilLt (c :: r)).2) := by
  conv_lhs => unfold parseOne

theorem parseNodes_cons (f : Nat) (c : Char) (r : List Char) :
    parseNodes (f + 1) (c :: r) =
      if c = '<' && headIs r '/' then some ([], c :: r)
      else
        match parseOne f (c :: r) with
        | none => none
        | some (n, rest) =>
          match parseNodes f rest with
          | none => none
          | some (ns, rest2) => some (n :: ns, rest2) := by
  conv_lhs => unfold parseNodes

theorem pseq_nil : PSeq [] [] := by
  intro f rest hf hstop
  cases f with
  | zero => omega
  | succ f =>
    cases rest with
    | nil => rfl
    | cons c r =>
      simp only [stopOk, List.isEmpty_cons, headIs, List.tail_cons, Bool.false_or,
        Bool.and_eq_true, decide_eq_true_eq] at hstop
      rw [List.nil_append, parseNodes_cons,
        if_pos (by simp [headIs, hstop.1, hstop.2])]

theorem poneT_text (a : List Char) (hne : a ≠ []) (hnl : '<' ∉ a) :
    POneT a (.ptext (unesc a).asString) := by
  intro f rest hf hlt
  obtain ⟨c, a2, rfl⟩ : ∃ c a2, a = c :: a2 := by
    cases a with
    | nil => cases hne rfl
    | cons c a2 => exact ⟨c, a2, rfl⟩
  cases f with
  | zero => simp at hf
  | succ f =>
    have hc : ¬(c = '<') := fun e => hnl (e ▸ List.mem_cons_self c a2)
    rw [List.cons_append, parseOne_cons, if_neg hc, ← List.cons_append,
      takeUntilLt_split (c :: a2) rest hnl hlt]

theorem stopOk_lt (rest : List Char) (h : stopOk rest = true) :
    rest = [] ∨ headIs rest '<' = true := by
  cases rest with
  | nil => exact Or.inl rfl
  | cons c r =>
    right
    have h2 : c = '<' ∧ headIs r '/' = true := by simpa [stopOk, headIs] using h
    simp [headIs, h2.1]

theorem pseq_cons_text (a : List Char) (n : PNode) (b : List Char) (ns : List PNode)
    (ha : POneT a n) (hne : a ≠ []) (hlt : headIs a '<' = false)
    (hbl : b = [] ∨ headIs b '<' = true) (hb : PSeq b ns) :
    PSeq (a ++ b) (n :: ns) := by
  intro f rest hf hstop
  obtain ⟨c, a2, rfl⟩ : ∃ c a2, a = c :: a2 := by
    cases a with
    | nil => cases hne rfl
    | cons c a2 => exact ⟨c, a2, rfl⟩
  simp only [List.length_append, List.length_cons] at hf
  cases f with
  | zero => omega
  | succ f =>
    simp only [headIs, decide_eq_true_eq] at hlt
    rw [List.cons_append, List.cons_append, parseNodes_cons, if_neg (by simp [hlt])]
    have hltrest : b ++ rest = [] ∨ headIs (b ++ rest) '<' = true := by
      rcases hbl with rfl | hb2
      · simpa using stopOk_lt rest hstop
      · right
        rw [headIs_append]
        · exact hb2
        · intro he
          rw [he] at hb2
          exact Bool.false_ne_true hb2
    have h1 := ha f (b ++ rest) (by simp only [List.length_cons]; omega) hltrest
    rw [List.cons_append, ← List.append_assoc] at h1
    rw [h1]
    have h2 := hb f rest (by omega) hstop
    simp [h2]

theorem pseq_cons_elem (a : List Char) (n : PNode) (b : List Char) (ns : List PNode)
    (ha : POneE a n) (hlen : 2 ≤ a.length) (hlt : headIs a '<' = true)
    (hsl : headIs a.tail '/' = false) (hb : PSeq b ns) :
    PSeq (a ++ b) (n :: ns) := by
  intro f rest hf hstop
  obtain ⟨c, a2, rfl⟩ : ∃ c a2, a = c :: a2 := by
    cases a with
    | nil => simp at hlen
    | cons c a2 => exact ⟨c, a2, rfl⟩
  simp only [List.length_append, List.length_cons] at hf
  simp only [headIs, decide_eq_true_eq] at hlt
  subst hlt
  cases f with
  | zero => omega
  | succ f =>
    have ha2 : a2 ≠ [] := by
      intro he
      rw [he] at hlen
      simp at hlen
    rw [List.cons_append, List.cons_append, parseNodes_cons,
      if_neg (by
        simp only [List.tail_cons] at hsl
        simp [headIs_append a2 (b ++ rest) '/' ha2, hsl])]
    have h1 := ha f (b ++ rest) (by simp only [List.length_cons]; omega)
    rw [List.cons_append, ← List.append_assoc] at h1
    rw [h1]
    have h2 := hb f rest (by omega) hstop
    simp [h2]

theorem append_ne_nil_left (t ats : List Char) (h : t ≠ []) : t ++ ats ≠ [] := by
  cases t with
  | nil => exact absurd rfl h
  | cons c cs => simp

theorem poneE_block (t ats inner : List Char) (ns : List PNode)
    (htne : t ≠ [])
    (hsl : headIs t '/' = false)
    (hsplit : ∀ x : List Char, ((t ++ ats) ++ '>' :: x).takeWhile nameChar = t)
    (hdrop : ∀ x : List Char, ((t ++ ats) ++ '>' :: x).dropWhile nameChar = ats ++ '>' :: x)
    (hats : ∀ x : List Char, skipAttrsToGt (ats ++ '>' :: x) = some (false, x))
    (hclose : ∀ x : List Char, closeTagRest t ('<' :: '/' :: (t ++ '>' :: x)) = some x)
    (hinner : PSeq inner ns) :
    POneE (elemChunk t ats inner) (.pel t ns) := by
  intro f rest hf
  have hlen : (elemChunk t ats inner).length =
      t.length + ats.length + 2 + inner.length + (t.length + 3) := by
    simp [elemChunk, openChunk, closeChunk, List.length_append]
    omega
  cases f with
  | zero => omega
  | succ f =>
    have hshape : elemChunk t ats inner ++ rest =
        '<' :: ((t ++ ats) ++ '>' :: (inner ++ (closeChunk t ++ rest))) := by
      simp [elemChunk, openChunk, List.append_assoc]
    rw [hshape, parseOne_cons, if_pos rfl,
      if_neg (by
        rw [headIs_append _ _ _ (append_ne_nil_left t ats htne),
          headIs_append _ _ _ htne, hsl]
        simp),
      if_neg (by rw [hsplit]; simp [List.isEmpty_iff, htne]), hdrop, hats]
    have hstop : stopOk (closeChunk t ++ rest) = true := by
      simp [stopOk, closeChunk, headIs]
    have h2 := hinner f (closeChunk t ++ rest) (by omega) hstop
    have hcl : closeChunk t ++ rest = '<' :: '/' :: (t ++ '>' :: rest) := by
      simp [closeChunk, List.append_assoc]
    rw [hcl] at h2 ⊢
    simp only [h2, hsplit, hclose rest]

theorem poneE_self (t ats : List Char)
    (htne : t ≠ [])
    (hsl : headIs t '/' = false)
    (hsplitS : ∀ x : List Char, ((t ++ ats) ++ '/' :: '>' :: x).takeWhile nameChar = t)
    (hdropS : ∀ x : List Char, ((t ++ ats) ++ '/' :: '>' :: x).dropWhile nameChar
      = ats ++ '/' :: '>' :: x)
    (hatsS : ∀ x : List Char, skipAttrsToGt (ats ++ '/' :: '>' :: x) = some (true, x)) :
    POneE (selfChunk t ats) (.pel t []) := by
  intro f rest hf
  have hlen : (selfChunk t ats).length = t.length + ats.length + 3 := by
    simp [selfChunk, List.length_append]
    omega
  cases f with
  | zero => omega
  | succ f =>
    have hshape : selfChunk t ats ++ rest =
        '<' :: ((t ++ ats) ++ '/' :: '>' :: rest) := by
      simp [selfChunk, List.append_assoc]
    rw [hshape, parseOne_cons, if_pos rfl,
      if_neg (by
        rw [headIs_append _ _ _ (append_ne_nil_left t ats htne),
          headIs_append _ _ _ htne, hsl]
        simp),
      if_neg (by rw [hsplitS]; simp [List.isEmpty_iff, htne]), hdropS, hatsS]
    simp only [hsplitS]

theorem asString_toList (s : String) : s.toList.asString = s := rfl

theorem toList_ne_nil (s : String) (h : s ≠ "") : s.toList ≠ [] := by
  intro he
  apply h
  rw [String.ext_iff]
  exact he

theorem headIs_false_of_not_mem (l : List Char) (c : Char) (h : c ∉ l) :
    headIs l c = false := by
  cases l with
  | nil => rfl
  | cons a l2 =>
    simp only [headIs, decide_eq_false_iff_not]
    intro e
    exact h (e ▸ List.mem_cons_self a l2)

theorem not_mem_nlsp (k : Nat) (c : Char) (h1 : c ≠ '\n') (h2 : c ≠ ' ') :
    c ∉ nlsp k := by
  intro hm
  rcases List.mem_cons.mp hm with he | he
  · exact h1 he
  · exact h2 (List.eq_of_mem_replicate he)

theorem poneT_ws (k : Nat) : POneT (nlsp k) (.ptext (nlsp k).asString) := by
  have h1 := poneT_text (nlsp k) (by simp [nlsp]) (not_mem_nlsp k '<' (by decide) (by decide))
  rwa [unesc_no_amp _ (not_mem_nlsp k '&' (by decide) (by decide))] at h1

theorem textElemChunk_head (t ats : List Char) (s : String) :
    headIs (textElemChunk t ats s) '<' = true := by
  by_cases hs : s = "" <;>
    simp [textElemChunk, hs, selfChunk, elemChunk, openChunk, headIs]

theorem textElemChunk_len (t ats : List Char) (s : String) :
    2 ≤ (textElemChunk t ats s).length := by
  by_cases hs : s = "" <;>
    (simp [textElemChunk, hs, selfChunk, elemChunk, openChunk, closeChunk,
      List.length_append]; omega)

theorem textElemChunk_tail_sl (t ats : List Char) (s : String) (htne : t ≠ [])
    (hsl : headIs t '/' = false) :
    headIs (textElemChunk t ats s).tail '/' = false := by
  by_cases hs : s = ""
  · rw [textElemChunk, if_pos hs]
    show headIs ('<' :: ((t ++ ats) ++ ['/', '>'])).tail '/' = false
    rw [List.tail_cons, headIs_append _ _ _ (append_ne_nil_left t ats htne),
      headIs_append _ _ _ htne]
    exact hsl
  · rw [textElemChunk, if_neg hs]
    show headIs (('<' :: ((t ++ ats) ++ ['>'])) ++ esc s.toList ++ closeChunk t).tail
      '/' = false
    rw [List.cons_append, List.cons_append, List.tail_cons]
    have hne1 : t ++ ats ≠ [] := append_ne_nil_left t ats htne
    have hne2 : (t ++ ats) ++ ['>'] ≠ [] := append_ne_nil_left _ _ hne1
    have hne3 : ((t ++ ats) ++ ['>']) ++ esc s.toList ≠ [] := append_ne_nil_left _ _ hne2
    rw [headIs_append _ _ _ hne3, headIs_append _ _ _ hne2, headIs_append _ _ _ hne1,
      headIs_append _ _ _ htne]
    exact hsl

theorem poneE_textElem (t ats : List Char) (s : String)
    (htne : t ≠ []) (hsl : headIs t '/' = false)
    (hsplit : ∀ x : List Char, ((t ++ ats) ++ '>' :: x).takeWhile nameChar = t)
    (hdrop : ∀ x : List Char, ((t ++ ats) ++ '>' :: x).dropWhile nameChar = ats ++ '>' :: x)
    (hats : ∀ x : List Char, skipAttrsToGt (ats ++ '>' :: x) = some (false, x))
    (hclose : ∀ x : List Char, closeTagRest t ('<' :: '/' :: (t ++ '>' :: x)) = some x)
    (hsplitS : ∀ x : List Char, ((t ++ ats) ++ '/' :: '>' :: x).takeWhile nameChar = t)
    (hdropS : ∀ x : List Char, ((t ++ ats) ++ '/' :: '>' :: x).dropWhile nameChar
      = ats ++ '/' :: '>' :: x)
    (hatsS : ∀ x : List Char, skipAttrsToGt (ats ++ '/' :: '>' :: x) = some (true, x)) :
    POneE (textElemChunk t ats s) (textElemP t s) := by
  by_cases hs : s = ""
  · rw [textElemChunk, if_pos hs, textElemP, if_pos hs]
    exact poneE_self t ats htne hsl hsplitS hdropS hatsS
  · rw [textElemChunk, if_neg hs, textElemP, if_neg hs]
    have h1 := poneT_text (esc s.toList) (esc_ne_nil _ (toList_ne_nil s hs)) (esc_not_lt _)
    rw [unesc_esc, asString_toList] at h1
    have h2 := pseq_cons_text (esc s.toList) (.ptext s) [] [] h1
      (esc_ne_nil _ (toList_ne_nil s hs))
      (headIs_false_of_not_mem _ _ (esc_not_lt s.toList)) (Or.inl rfl) pseq_nil
    rw [List.append_nil] at h2
    exact poneE_block t ats (esc s.toList) [.ptext s] htne hsl hsplit hdrop hats hclose h2

theorem pseq_ws_textElem (k : Nat) (t ats : List Char) (s : String) (b : List Char)
    (ns : List PNode)
    (hE : POneE (textElemChunk t ats s) (textElemP t s))
    (htne : t ≠ []) (hsl : headIs t '/' = false)
    (hb : PSeq b ns) :
    PSeq (nlsp k ++ textElemChunk t ats s ++ b)
      (.ptext (nlsp k).asString :: textElemP t s :: ns) := by
  have h1 := pseq_cons_elem (textElemChunk t ats s) (textElemP t s) b ns hE
    (textElemChunk_len t ats s) (textElemChunk_head t ats s)
    (textElemChunk_tail_sl t ats s htne hsl) hb
  have h2 := pseq_cons_text (nlsp k) (.ptext (nlsp k).asString)
    (textElemChunk t ats s ++ b) (textElemP t s :: ns) (poneT_ws k) (by simp [nlsp])
    (headIs_false_of_not_mem _ _ (not_mem_nlsp k '<' (by decide) (by decide)))
    (Or.inr (by
      rw [headIs_append _ _ _ (by
        intro he
        have := textElemChunk_len t ats s
        rw [he] at this
        simp at this)]
      exact textElemChunk_head t ats s)) h1
  rwa [← List.append_assoc] at h2

theorem poneE_title (s : String) :
    POneE (textElemChunk "title".toList [] s) (textElemP "title".toList s) :=
  poneE_textElem _ _ s (by decide) (by decide) (fun x => rfl) (fun x => rfl)
    (fun x => rfl) (fun x => rfl) (fun x => rfl) (fun x => rfl) (fun x => rfl)

theorem poneE_link (s : String) :
    POneE (textElemChunk "link".toList [] s) (textElemP "link".toList s) :=
  poneE_textElem _ _ s (by decide) (by decide) (fun x => rfl) (fun x => rfl)
    (fun x => rfl) (fun x => rfl) (fun x => rfl) (fun x => rfl) (fun x => rfl)

theorem poneE_description (s : String) :
    POneE (textElemChunk "description".toList [] s) (textElemP "description".toList s) :=
  poneE_textElem _ _ s (by decide) (by decide) (fun x => rfl) (fun x => rfl)
    (fun x => rfl) (fun x => rfl) (fun x => rfl) (fun x => rfl) (fun x => rfl)

theorem poneE_guid (s : String) :
    POneE (textElemChunk "guid".toList guidAts s) (textElemP "guid".toList s) :=
  poneE_textElem _ _ s (by decide) (by decide) (fun x => rfl) (fun x => rfl)
    (fun x => rfl) (fun x => rfl) (fun x => rfl) (fun x => rfl) (fun x => rfl)

theorem poneE_pubDate (s : String) :
    POneE (textElemChunk "pubDate".toList [] s) (textElemP "pubDate".toList s) :=
  poneE_textElem _ _ s (by decide) (by decide) (fun x => rfl) (fun x => rfl)
    (fun x => rfl) (fun x => rfl) (fun x => rfl) (fun x => rfl) (fun x => rfl)

theorem poneE_source (s : String) :
    POneE (textElemChunk "source".toList srcAts s) (textElemP "source".toList s) :=
  poneE_textElem _ _ s (by decide) (by decide) (fun x => rfl) (fun x => rfl)
    (fun x => rfl) (fun x => rfl) (fun x => rfl) (fun x => rfl) (fun x => rfl)

theorem poneE_language (s : String) :
    POneE (textElemChunk "language".toList [] s) (textElemP "language".toList s) :=
  poneE_textElem _ _ s (by decide) (by decide) (fun x => rfl) (fun x => rfl)
    (fun x => rfl) (fun x => rfl) (fun x => rfl) (fun x => rfl) (fun x => rfl)

theorem pseq_ws_only (k : Nat) : PSeq (nlsp k) [.ptext (nlsp k).asString] := by
  have h := pseq_cons_text (nlsp k) (.ptext (nlsp k).asString) [] [] (poneT_ws k)
    (by simp [nlsp])
    (headIs_false_of_not_mem _ _ (not_mem_nlsp k '<' (by decide) (by decide)))
    (Or.inl rfl) pseq_nil
  simpa using h

theorem poneE_item (now : String) (j : Job) :
    POneE (itemChunk now j) (itemP now j) := by
  have h6 := pseq_ws_textElem 6 "source".toList srcAts "World Bank Group Job Vacancies"
    (nlsp 4) _ (poneE_source _) (by decide) (by decide) (pseq_ws_only 4)
  have h5 := pseq_ws_textElem 6 "pubDate".toList [] now _ _ (poneE_pubDate _)
    (by decide) (by decide) h6
  have h4 := pseq_ws_textElem 6 "guid".toList guidAts (generate_numeric_id j.link) _ _
    (poneE_guid _) (by decide) (by decide) h5
  have h3 := pseq_ws_textElem 6 "description".toList [] j.description _ _
    (poneE_description _) (by decide) (by decide) h4
  have h2 := pseq_ws_textElem 6 "link".toList [] j.link _ _ (poneE_link _)
    (by decide) (by decide) h3
  have h1 := pseq_ws_textElem 6 "title".toList [] j.title _ _ (poneE_title _)
    (by decide) (by decide) h2
  have hb := poneE_block "item".toList []
    (nlsp 6 ++ textElemChunk "title".toList [] j.title ++
     (nlsp 6 ++ textElemChunk "link".toList [] j.link ++
      (nlsp 6 ++ textElemChunk "description".toList [] j.description ++
       (nlsp 6 ++ textElemChunk "guid".toList guidAts (generate_numeric_id j.link) ++
        (nlsp 6 ++ textElemChunk "pubDate".toList [] now ++
         (nlsp 6 ++ textElemChunk "source".toList srcAts "World Bank Group Job Vacancies" ++
          nlsp 4))))))
    _ (by decide) (by decide) (fun x => rfl) (fun x => rfl) (fun x => rfl)
    (fun x => rfl) h1
  exact hb

theorem elemChunk_head (t ats i : List Char) : headIs (elemChunk t ats i) '<' = true := by
  simp [elemChunk, openChunk, List.cons_append, headIs]

theorem elemChunk_len (t ats i : List Char) : 2 ≤ (elemChunk t ats i).length := by
  simp [elemChunk, openChunk, closeChunk, List.length_append]
  omega

theorem elemChunk_ne_nil (t ats i : List Char) : elemChunk t ats i ≠ [] := by
  intro h
  have := elemChunk_len t ats i
  rw [h] at this
  simp at this

theorem elemChunk_tail_sl (t ats i : List Char) (htne : t ≠ [])
    (hsl : headIs t '/' = false) : headIs (elemChunk t ats i).tail '/' = false := by
  show headIs (('<' :: ((t ++ ats) ++ ['>'])) ++ i ++ closeChunk t).tail '/' = false
  rw [List.cons_append, List.cons_append, List.tail_cons]
  have hne1 : t ++ ats ≠ [] := append_ne_nil_left t ats htne
  have hne2 : (t ++ ats) ++ ['>'] ≠ [] := append_ne_nil_left _ _ hne1
  have hne3 : ((t ++ ats) ++ ['>']) ++ i ≠ [] := append_ne_nil_left _ _ hne2
  rw [headIs_append _ _ _ hne3, headIs_append _ _ _ hne2, headIs_append _ _ _ hne1,
    headIs_append _ _ _ htne]
  exact hsl

theorem pseq_items (now : String) (jobs : List Job) :
    PSeq ((jobs.flatMap fun j => nlsp 4 ++ itemChunk now j) ++ nlsp 2)
      ((jobs.flatMap fun j => [.ptext (nlsp 4).asString, itemP now j]) ++
        [.ptext (nlsp 2).asString]) := by
  induction jobs with
  | nil => simpa using pseq_ws_only 2
  | cons j rest ih =>
    have h1 := pseq_cons_elem (itemChunk now j) (itemP now j)
      ((rest.flatMap fun j => nlsp 4 ++ itemChunk now j) ++ nlsp 2) _
      (poneE_item now j) (elemChunk_len _ _ _) (elemChunk_head _ _ _)
      (elemChunk_tail_sl _ _ _ (by decide) (by decide)) ih
    have h2 := pseq_cons_text (nlsp 4) (.ptext (nlsp 4).asString) _ _ (poneT_ws 4)
      (by simp [nlsp])
      (headIs_false_of_not_mem _ _ (not_mem_nlsp 4 '<' (by decide) (by decide)))
      (Or.inr (by
        rw [headIs_append (itemChunk now j) _ '<' (elemChunk_ne_nil _ _ _)]
        exact elemChunk_head _ _ _)) h1
    simp only [List.flatMap_cons, List.append_assoc, List.cons_append, List.nil_append]
      at h2 ⊢
    exact h2

theorem poneE_channel (now : String) (jobs : List Job) :
    POneE (elemChunk "channel".toList [] (channelInner now jobs))
      (.pel "channel".toList (channelKidsP now jobs)) := by
  have h5 := pseq_ws_textElem 4 "pubDate".toList [] now _ _ (poneE_pubDate _)
    (by decide) (by decide) (pseq_items now jobs)
  have h4 := pseq_ws_textElem 4 "language".toList [] "en" _ _ (poneE_language _)
    (by decide) (by decide) h5
  have h3 := pseq_ws_textElem 4 "description".toList []
    "List of vacancies at the World Bank Group" _ _ (poneE_description _)
    (by decide) (by decide) h4
  have h2 := pseq_ws_textElem 4 "link".toList [] "https://worldbankgroup.csod.com/" _ _
    (poneE_link _) (by decide) (by decide) h3
  have h1 := pseq_ws_textElem 4 "title".toList [] "World Bank Group Job Vacancies" _ _
    (poneE_title _) (by decide) (by decide) h2
  have hb := poneE_block "channel".toList [] (channelInner now jobs)
    (channelKidsP now jobs) (by decide) (by decide) (fun x => rfl) (fun x => rfl)
    (fun x => rfl) (fun x => rfl) ?_
  · exact hb
  · show PSeq (channelInner now jobs) (channelKidsP now jobs)
    unfold channelInner channelKidsP
    simp only [List.append_assoc, List.cons_append, List.nil_append] at h1 ⊢
    exact h1

theorem poneE_rss (now : String) (jobs : List Job) :
    POneE (elemChunk "rss".toList rssAts
      (nlsp 2 ++ elemChunk "channel".toList [] (channelInner now jobs) ++ nlsp 0))
      (parsedFeed now jobs) := by
  have h2 := pseq_cons_elem
    (elemChunk "channel".toList [] (channelInner now jobs))
    (.pel "channel".toList (channelKidsP now jobs)) (nlsp 0) _
    (poneE_channel now jobs) (elemChunk_len _ _ _) (elemChunk_head _ _ _)
    (elemChunk_tail_sl _ _ _ (by decide) (by decide)) (pseq_ws_only 0)
  have h1 := pseq_cons_text (nlsp 2) (.ptext (nlsp 2).asString) _ _ (poneT_ws 2)
    (by simp [nlsp])
    (headIs_false_of_not_mem _ _ (not_mem_nlsp 2 '<' (by decide) (by decide)))
    (Or.inr (by
      rw [headIs_append (elemChunk "channel".toList [] (channelInner now jobs)) _ '<'
        (elemChunk_ne_nil _ _ _)]
      exact elemChunk_head _ _ _)) h2
  have hb := poneE_block "rss".toList rssAts
    (nlsp 2 ++ elemChunk "channel".toList [] (channelInner now jobs) ++ nlsp 0)
    [.ptext (nlsp 2).asString, .pel "channel".toList (channelKidsP now jobs),
     .ptext (nlsp 0).asString] (by decide) (by decide)
    (fun x => rfl) (fun x => rfl) (fun x => rfl) (fun x => rfl)
    (by simp only [List.append_assoc] at h1 ⊢; exact h1)
  exact hb

theorem elemChunk_cons (t ats i : List Char) :
    elemChunk t ats i = '<' :: ((t ++ ats) ++ '>' :: (i ++ closeChunk t)) := by
  simp [elemChunk, openChunk, List.append_assoc]

theorem parse_docChunk (now : String) (jobs : List Job) :
    parseXmlChars (docChunk now jobs) = some (parsedFeed now jobs) := by
  have hseq := pseq_cons_elem _ _ [] [] (poneE_rss now jobs) (elemChunk_len _ _ _)
    (elemChunk_head _ _ _) (elemChunk_tail_sl _ _ _ (by decide) (by decide)) pseq_nil
  rw [List.append_nil] at hseq
  have hlen : (docChunk now jobs).length = declChars.length + (1 +
      (elemChunk "rss".toList rssAts
        (nlsp 2 ++ elemChunk "channel".toList [] (channelInner now jobs) ++
          nlsp 0)).length) := by
    simp [docChunk, List.length_append]
    omega
  have hpn := hseq ((docChunk now jobs).length + 1) [] (by omega) rfl
  rw [List.append_nil, elemChunk_cons] at hpn
  unfold parseXmlChars
  rw [show skipDecl (docChunk now jobs) = '\n' ::
      elemChunk "rss".toList rssAts
        (nlsp 2 ++ elemChunk "channel".toList [] (channelInner now jobs) ++ nlsp 0)
    by unfold docChunk; rfl]
  rw [elemChunk_cons]
  rw [List.dropWhile_cons, if_pos (by decide), List.dropWhile_cons, if_neg (by decide)]
  simp only [hpn]
  rfl

theorem sp_add (m n : Nat) : sp m ++ sp n = sp (m + n) := by
  simp [sp, ← List.replicate_add]

theorem renderNode_textElem (ind : Nat) (tg : String) (a : List (String × String))
    (s : String) :
    renderNode (sp ind) (.xel tg a (textKids s)) =
      inlineLine ind tg.toList (attrsChars a) s ++ ['\n'] := by
  by_cases hs : s = ""
  · subst hs
    simp [textKids, renderNode, inlineLine, textElemChunk, selfChunk,
      List.append_assoc]
  · rw [show textKids s = [.xtext s] by simp [textKids, hs]]
    rw [renderNode]
    simp [inlineLine, textElemChunk, hs, elemChunk, openChunk, closeChunk,
      List.append_assoc]

theorem renderForest_append (ind : List Char) (a b : List XNode) :
    renderForest ind (a ++ b) = renderForest ind a ++ renderForest ind b := by
  induction a with
  | nil => rfl
  | cons x xs ih => simp [renderForest, ih]

theorem renderNode_item (now : String) (j : Job) :
    renderNode (sp 4) (itemNode now j) = linesJoin (itemLines now j) := by
  show renderNode (sp 4) (.xel "item" []
    [.xel "title" [] (textKids j.title),
     .xel "link" [] (textKids j.link),
     .xel "description" [] (textKids j.description),
     .xel "guid" [("isPermaLink", "false")] (textKids (generate_numeric_id j.link)),
     .xel "pubDate" [] (textKids now),
     .xel "source" [("url", "https://worldbankgroup.csod.com/")]
       (textKids "World Bank Group Job Vacancies")]) = _
  rw [renderNode]
  rw [show sp 4 ++ [' ', ' '] = sp 6 from sp_add 4 2]
  simp only [renderForest, renderNode_textElem 6]
  simp [linesJoin, itemLines, openLine, closeLine, inlineLine, openChunk, closeChunk,
    guidAts, srcAts, attrsChars, List.append_assoc]
  all_goals simp

theorem linesJoin_append (a b : List (List Char)) :
    linesJoin (a ++ b) = linesJoin a ++ linesJoin b := by
  simp [linesJoin]

theorem renderForest_items (now : String) (jobs : List Job) :
    renderForest (sp 4) (jobs.map (itemNode now)) =
      linesJoin (jobs.flatMap (itemLines now)) := by
  induction jobs with
  | nil => rfl
  | cons j rest ih =>
    simp only [List.map_cons, List.flatMap_cons, renderForest, linesJoin_append, ih,
      renderNode_item]

theorem renderNode_channel (now : String) (jobs : List Job) :
    renderNode (sp 2) (.xel "channel" []
      ([.xel "title" [] (textKids "World Bank Group Job Vacancies"),
        .xel "link" [] (textKids "https://worldbankgroup.csod.com/"),
        .xel "description" [] (textKids "List of vacancies at the World Bank Group"),
        .xel "language" [] (textKids "en"),
        .xel "pubDate" [] (textKids now)] ++ jobs.map (itemNode now))) =
      linesJoin ([openLine 2 "channel".toList [],
        inlineLine 4 "title".toList [] "World Bank Group Job Vacancies",
        inlineLine 4 "link".toList [] "https://worldbankgroup.csod.com/",
        inlineLine 4 "description".toList [] "List of vacancies at the World Bank Group",
        inlineLine 4 "language".toList [] "en",
        inlineLine 4 "pubDate".toList [] now] ++
        jobs.flatMap (itemLines now) ++ [closeLine 2 "channel".toList]) := by
  rw [renderNode]
  rotate_left
  · simp
  · intro s h
    have := congrArg List.length h
    simp [List.length_append] at this
  rw [show sp 2 ++ [' ', ' '] = sp 4 from sp_add 2 2, renderForest_append,
    renderForest_items]
  simp only [renderForest, renderNode_textElem 4]
  simp [linesJoin, linesJoin_append, openLine, closeLine, inlineLine, openChunk,
    closeChunk, attrsChars, List.append_assoc]

theorem render_eq_lines (now : String) (jobs : List Job) :
    prettyDoc (buildRss now jobs) = linesJoin (feedLines now jobs) := by
  rw [prettyDoc, buildRss, renderNode]
  rotate_left
  · simp
  · simp
  rw [show ("<?xml version=\"1.0\" ?>\n".toList : List Char) = declChars ++ ['\n']
    from rfl]
  rw [show (([] : List Char) ++ [' ', ' ']) = sp 2 from rfl]
  rw [show renderForest (sp 2)
      [XNode.xel "channel" []
        ([.xel "title" [] (textKids "World Bank Group Job Vacancies"),
          .xel "link" [] (textKids "https://worldbankgroup.csod.com/"),
          .xel "description" [] (textKids "List of vacancies at the World Bank Group"),
          .xel "language" [] (textKids "en"),
          .xel "pubDate" [] (textKids now)] ++ jobs.map (itemNode now))] =
      renderNode (sp 2) (XNode.xel "channel" []
        ([.xel "title" [] (textKids "World Bank Group Job Vacancies"),
          .xel "link" [] (textKids "https://worldbankgroup.csod.com/"),
          .xel "description" [] (textKids "List of vacancies at the World Bank Group"),
          .xel "language" [] (textKids "en"),
          .xel "pubDate" [] (textKids now)] ++ jobs.map (itemNode now))) ++ []
    from rfl]
  rw [renderNode_channel]
  simp [linesJoin, feedLines, linesJoin_append, openLine, closeLine, inlineLine,
    openChunk, closeChunk, attrsChars, rssAts, List.append_assoc,
    show sp 0 = ([] : List Char) from rfl]

theorem linesJoin_cons (l : List Char) (L : List (List Char)) :
    linesJoin (l :: L) = l ++ '\n' :: linesJoin L := by
  simp [linesJoin]

theorem linesJoin_item_chunk (now : String) (j : Job) (Z : List Char) :
    linesJoin (itemLines now j) ++ Z = sp 4 ++ (itemChunk now j ++ '\n' :: Z) := by
  simp [linesJoin_cons, itemLines, itemChunk, elemChunk, openChunk, closeChunk,
    openLine, inlineLine, closeLine, nlsp, linesJoin, List.append_assoc]

theorem items_chunk (now : String) (jobs : List Job) : ∀ Y : List Char,
    '\n' :: (linesJoin (jobs.flatMap (itemLines now)) ++ Y) =
      (jobs.flatMap fun j => nlsp 4 ++ itemChunk now j) ++ '\n' :: Y := by
  induction jobs with
  | nil =>
    intro Y
    simp [linesJoin]
  | cons j rest ih =>
    intro Y
    simp only [List.flatMap_cons, linesJoin_append, List.append_assoc]
    rw [linesJoin_item_chunk]
    rw [show ('\n' :: (sp 4 ++ (itemChunk now j ++
        '\n' :: (linesJoin (rest.flatMap (itemLines now)) ++ Y)))) =
      nlsp 4 ++ (itemChunk now j ++
        ('\n' :: (linesJoin (rest.flatMap (itemLines now)) ++ Y))) by simp [nlsp]]
    rw [ih Y]

theorem lines_eq_chunk (now : String) (jobs : List Job) :
    linesJoin (feedLines now jobs) = docChunk now jobs ++ ['\n'] := by
  rw [feedLines]
  simp only [linesJoin_cons, linesJoin_append]
  rw [show (linesJoin [] : List Char) = [] from rfl]
  rw [items_chunk now jobs
    (closeLine 2 "channel".toList ++ '\n' :: (closeLine 0 "rss".toList ++ '\n' :: []))]
  rw [docChunk]
  simp [elemChunk, openChunk, closeChunk, openLine, inlineLine, closeLine,
    channelInner, nlsp, List.append_assoc, show sp 0 = ([] : List Char) from rfl]

theorem toList_asString (l : List Char) : l.asString.toList = l := rfl

theorem digits_no_nl (n : Nat) : '\n' ∉ (natStr n).toList := by
  intro h
  rw [natStr, toList_asString] at h
  have h2 := natDigitsAux_all_digits (n + 1) n
  have h3 := List.all_eq_true.mp h2 _ h
  simp at h3

theorem mem_sp (c : Char) (n : Nat) (h : c ∈ sp n) : c = ' ' :=
  List.eq_of_mem_replicate h

theorem line_no_nl (ind : Nat) (chunk : List Char) (h : '\n' ∉ chunk) :
    '\n' ∉ sp ind ++ chunk := by
  intro hm
  rcases List.mem_append.mp hm with h2 | h2
  · exact absurd (mem_sp _ _ h2) (by decide)
  · exact h h2

theorem openChunk_no_nl (t ats : List Char) (ht : '\n' ∉ t) (ha : '\n' ∉ ats) :
    '\n' ∉ openChunk t ats := by
  intro hm
  simp only [openChunk, List.mem_cons, List.mem_append] at hm
  rcases hm with h | h
  · exact absurd h (by decide)
  · rcases h with (h | h) | h
    · exact ht h
    · exact ha h
    · simp at h

theorem closeChunk_no_nl (t : List Char) (ht : '\n' ∉ t) : '\n' ∉ closeChunk t := by
  intro hm
  simp only [closeChunk, List.mem_cons, List.mem_append] at hm
  rcases hm with h | h | h | h
  · exact absurd h (by decide)
  · exact absurd h (by decide)
  · exact ht h
  · simp at h

theorem selfChunk_no_nl (t ats : List Char) (ht : '\n' ∉ t) (ha : '\n' ∉ ats) :
    '\n' ∉ selfChunk t ats := by
  intro hm
  simp only [selfChunk, List.mem_cons, List.mem_append] at hm
  rcases hm with h | h
  · exact absurd h (by decide)
  · rcases h with (h | h) | h
    · exact ht h
    · exact ha h
    · simp at h

theorem textElemChunk_no_nl (t ats : List Char) (s : String) (ht : '\n' ∉ t)
    (ha : '\n' ∉ ats) (hs : '\n' ∉ s.toList) : '\n' ∉ textElemChunk t ats s := by
  by_cases he : s = ""
  · rw [textElemChunk, if_pos he]
    exact selfChunk_no_nl t ats ht ha
  · rw [textElemChunk, if_neg he]
    intro hm
    simp only [elemChunk, List.mem_append] at hm
    rcases hm with (h | h) | h
    · exact openChunk_no_nl t ats ht ha h
    · exact esc_no_nl _ hs h
    · exact closeChunk_no_nl t ht h

theorem textOk_no_nl (s : String) (h : textOk s = true) : '\n' ∉ s.toList := by
  simpa [textOk] using h

theorem linkOk_no_nl (s : String) (h : linkOk s = true) : '\n' ∉ s.toList := by
  intro hm
  rw [linkOk] at h
  have h2 := (Bool.and_eq_true _ _ |>.mp h).2
  have h3 := List.all_eq_true.mp h2 _ hm
  simp at h3

theorem guid_no_nl (u : String) : '\n' ∉ (generate_numeric_id u).toList :=
  digits_no_nl (numericIdVal u)

theorem itemLines_no_nl (now : String) (j : Job) (hnow : textOk now = true)
    (hj : jobOk j = true) : ∀ l ∈ itemLines now j, '\n' ∉ l := by
  rw [jobOk] at hj
  have h1 := (Bool.and_eq_true _ _ |>.mp hj).1
  have h2 := (Bool.and_eq_true _ _ |>.mp hj).2
  have hl := (Bool.and_eq_true _ _ |>.mp h1).1
  have ht := (Bool.and_eq_true _ _ |>.mp h1).2
  intro l hl2
  simp only [itemLines, List.mem_cons, List.not_mem_nil, or_false] at hl2
  rcases hl2 with rfl | rfl | rfl | rfl | rfl | rfl | rfl | rfl
  · exact line_no_nl _ _ (openChunk_no_nl _ _ (by decide) (by decide))
  · exact line_no_nl _ _
      (textElemChunk_no_nl _ _ _ (by decide) (by decide) (textOk_no_nl _ ht))
  · exact line_no_nl _ _
      (textElemChunk_no_nl _ _ _ (by decide) (by decide) (linkOk_no_nl _ hl))
  · exact line_no_nl _ _
      (textElemChunk_no_nl _ _ _ (by decide) (by decide) (textOk_no_nl _ h2))
  · exact line_no_nl _ _
      (textElemChunk_no_nl _ _ _ (by decide) (by decide) (guid_no_nl _))
  · exact line_no_nl _ _
      (textElemChunk_no_nl _ _ _ (by decide) (by decide) (textOk_no_nl _ hnow))
  · exact line_no_nl _ _
      (textElemChunk_no_nl _ _ _ (by decide) (by decide) (by decide))
  · exact line_no_nl _ _ (closeChunk_no_nl _ (by decide))

theorem feedLines_no_nl (now : String) (jobs : List Job) (hnow : textOk now = true)
    (hj : ∀ j ∈ jobs, jobOk j = true) : ∀ l ∈ feedLines now jobs, '\n' ∉ l := by
  intro l hl
  simp only [feedLines, List.mem_cons, List.mem_append, List.mem_flatMap,
    List.not_mem_nil, or_false] at hl
  rcases hl with rfl | rfl | rfl | rfl | rfl | rfl | rfl | rfl | ⟨j, hjm, hlj⟩ | rfl | rfl
  · decide
  · exact line_no_nl _ _ (openChunk_no_nl _ _ (by decide) (by decide))
  · exact line_no_nl _ _ (openChunk_no_nl _ _ (by decide) (by decide))
  · exact line_no_nl _ _
      (textElemChunk_no_nl _ _ _ (by decide) (by decide) (by decide))
  · exact line_no_nl _ _
      (textElemChunk_no_nl _ _ _ (by decide) (by decide) (by decide))
  · exact line_no_nl _ _
      (textElemChunk_no_nl _ _ _ (by decide) (by decide) (by decide))
  · exact line_no_nl _ _
      (textElemChunk_no_nl _ _ _ (by decide) (by decide) (by decide))
  · exact line_no_nl _ _
      (textElemChunk_no_nl _ _ _ (by decide) (by decide) (textOk_no_nl _ hnow))
  · exact itemLines_no_nl now j hnow (hj j hjm) l hlj
  · exact line_no_nl _ _ (closeChunk_no_nl _ (by decide))
  · exact line_no_nl _ _ (closeChunk_no_nl _ (by decide))

theorem lt_mem_line (ind : Nat) (chunk : List Char) (h : headIs chunk '<' = true) :
    '<' ∈ sp ind ++ chunk := by
  apply List.mem_append.mpr
  right
  cases chunk with
  | nil => simp [headIs] at h
  | cons c r =>
    simp only [headIs, decide_eq_true_eq] at h
    subst h
    exact List.mem_cons_self _ _

theorem line_nonblank (ind : Nat) (chunk : List Char) (h : headIs chunk '<' = true) :
    isBlankLine (sp ind ++ chunk) = false :=
  isBlankLine_false_of_mem _ '<' (lt_mem_line ind chunk h) (by decide)

theorem openChunk_head (t ats : List Char) : headIs (openChunk t ats) '<' = true := by
  simp [openChunk, headIs]

theorem closeChunk_head (t : List Char) : headIs (closeChunk t) '<' = true := by
  simp [closeChunk, headIs]

theorem feedLines_nonblank (now : String) (jobs : List Job) :
    ∀ l ∈ feedLines now jobs, isBlankLine l = false := by
  intro l hl
  simp only [feedLines, List.mem_cons, List.mem_append, List.mem_flatMap,
    List.not_mem_nil, or_false] at hl
  rcases hl with rfl | rfl | rfl | rfl | rfl | rfl | rfl | rfl | ⟨j, hjm, hlj⟩ | rfl | rfl
  · decide
  · exact line_nonblank _ _ (openChunk_head _ _)
  · exact line_nonblank _ _ (openChunk_head _ _)
  · exact line_nonblank _ _ (textElemChunk_head _ _ _)
  · exact line_nonblank _ _ (textElemChunk_head _ _ _)
  · exact line_nonblank _ _ (textElemChunk_head _ _ _)
  · exact line_nonblank _ _ (textElemChunk_head _ _ _)
  · exact line_nonblank _ _ (textElemChunk_head _ _ _)
  · simp only [itemLines, List.mem_cons, List.not_mem_nil, or_false] at hlj
    rcases hlj with rfl | rfl | rfl | rfl | rfl | rfl | rfl | rfl
    · exact line_nonblank _ _ (openChunk_head _ _)
    · exact line_nonblank _ _ (textElemChunk_head _ _ _)
    · exact line_nonblank _ _ (textElemChunk_head _ _ _)
    · exact line_nonblank _ _ (textElemChunk_head _ _ _)
    · exact line_nonblank _ _ (textElemChunk_head _ _ _)
    · exact line_nonblank _ _ (textElemChunk_head _ _ _)
    · exact line_nonblank _ _ (textElemChunk_head _ _ _)
    · exact line_nonblank _ _ (closeChunk_head _)
  · exact line_nonblank _ _ (closeChunk_head _)
  · exact line_nonblank _ _ (closeChunk_head _)

/-- Under the hygiene hypotheses the written file is exactly the chunk view
of the document. -/
theorem written_chars (now : String) (jobs : List Job) (hnow : textOk now = true)
    (hj : ∀ j ∈ jobs, jobOk j = true) :
    (generate_rss_feed now jobs).toList = docChunk now jobs := by
  rw [generate_rss_feed, toList_asString, render_eq_lines,
    splitNL_linesJoin _ (feedLines_no_nl now jobs hnow hj)]
  rw [List.filter_append,
    List.filter_eq_self.mpr (by
      intro l hl
      simp [feedLines_nonblank now jobs l hl]),
    show (List.filter (fun l => !isBlankLine l) [[]] : List (List Char)) = [] by decide]
  rw [List.append_nil]
  have h1 := linesJoin_eq_joinNL (feedLines now jobs) (by simp [feedLines])
  have h2 := lines_eq_chunk now jobs
  have h3 := congrArg List.dropLast (h1.symm.trans h2)
  simpa [List.dropLast_concat] using h3

/-- The round trip at the level of the written file: the feed the run writes
parses back to the expected document. -/
theorem written_parses (now : String) (jobs : List Job) (hnow : textOk now = true)
    (hj : ∀ j ∈ jobs, jobOk j = true) :
    parseXmlChars (generate_rss_feed now jobs).toList = some (parsedFeed now jobs) := by
  rw [written_chars now jobs hnow hj]
  exact parse_docChunk now jobs

theorem psubForest_append (a b : List PNode) :
    psubForest (a ++ b) = psubForest a ++ psubForest b := by
  induction a with
  | nil => rfl
  | cons x xs ih => simp [psubForest, ih]

theorem findItems_eq (root : PNode) :
    findItems root = (match root with
      | .pel _ ks => psubForest ks
      | .ptext _ => []).filter isItemTag := rfl

theorem textElemP_no_item (t : List Char) (s : String)
    (h : ¬t = ['i', 't', 'e', 'm']) :
    (psubNodes (textElemP t s)).filter isItemTag = [] := by
  by_cases hs : s = "" <;>
    simp [textElemP, hs, psubNodes, psubForest, isItemTag, h]

theorem ptext_filter (x : String) :
    (psubNodes (.ptext x)).filter isItemTag = [] := rfl

theorem itemP_filter (now : String) (j : Job) :
    (psubNodes (itemP now j)).filter isItemTag = [itemP now j] := by
  rw [show psubNodes (itemP now j) = itemP now j :: psubForest
    [.ptext (nlsp 6).asString, textElemP "title".toList j.title,
     .ptext (nlsp 6).asString, textElemP "link".toList j.link,
     .ptext (nlsp 6).asString, textElemP "description".toList j.description,
     .ptext (nlsp 6).asString, textElemP "guid".toList (generate_numeric_id j.link),
     .ptext (nlsp 6).asString, textElemP "pubDate".toList now,
     .ptext (nlsp 6).asString,
     textElemP "source".toList "World Bank Group Job Vacancies",
     .ptext (nlsp 4).asString] from rfl]
  rw [List.filter_cons, if_pos (show isItemTag (itemP now j) = true from rfl)]
  simp only [psubForest, List.filter_append, ptext_filter,
    textElemP_no_item "title".toList j.title (by decide),
    textElemP_no_item "link".toList j.link (by decide),
    textElemP_no_item "description".toList j.description (by decide),
    textElemP_no_item "guid".toList (generate_numeric_id j.link) (by decide),
    textElemP_no_item "pubDate".toList now (by decide),
    textElemP_no_item "source".toList "World Bank Group Job Vacancies" (by decide),
    List.append_nil, List.nil_append]

theorem psubNodes_pel (t : List Char) (ks : List PNode) :
    psubNodes (.pel t ks) = .pel t ks :: psubForest ks := rfl

theorem channel_not_item (ks : List PNode) :
    isItemTag (.pel "channel".toList ks) = false := rfl

theorem items_part_filter (now : String) (jobs : List Job) :
    (psubForest (jobs.flatMap fun j =>
      [PNode.ptext (nlsp 4).asString, itemP now j])).filter isItemTag
      = jobs.map (itemP now) := by
  induction jobs with
  | nil => rfl
  | cons j rest ih =>
    simp only [List.flatMap_cons, List.map_cons, psubForest_append,
      List.filter_append, ih]
    rw [show psubForest [PNode.ptext (nlsp 4).asString, itemP now j]
      = psubNodes (.ptext (nlsp 4).asString)
        ++ (psubNodes (itemP now j) ++ psubForest []) from rfl]
    simp only [List.filter_append, ptext_filter, itemP_filter, psubForest,
      List.filter_nil, List.append_nil, List.nil_append, List.cons_append]

theorem channel_head_filter (now : String) :
    (psubForest [PNode.ptext (nlsp 4).asString,
      textElemP "title".toList "World Bank Group Job Vacancies",
      PNode.ptext (nlsp 4).asString,
      textElemP "link".toList "https://worldbankgroup.csod.com/",
      PNode.ptext (nlsp 4).asString,
      textElemP "description".toList "List of vacancies at the World Bank Group",
      PNode.ptext (nlsp 4).asString, textElemP "language".toList "en",
      PNode.ptext (nlsp 4).asString,
      textElemP "pubDate".toList now]).filter isItemTag = [] := by
  simp only [psubForest, List.filter_append, ptext_filter,
    textElemP_no_item "title".toList _ (by decide),
    textElemP_no_item "link".toList _ (by decide),
    textElemP_no_item "description".toList _ (by decide),
    textElemP_no_item "language".toList _ (by decide),
    textElemP_no_item "pubDate".toList now (by decide),
    List.filter_nil, List.append_nil]

theorem findItems_parsedFeed (now : String) (jobs : List Job) :
    findItems (parsedFeed now jobs) = jobs.map (itemP now) := by
  rw [findItems_eq]
  show (psubForest [PNode.ptext (nlsp 2).asString,
    .pel "channel".toList (channelKidsP now jobs),
    .ptext (nlsp 0).asString]).filter isItemTag = _
  rw [show psubForest [PNode.ptext (nlsp 2).asString,
      .pel "channel".toList (channelKidsP now jobs),
      .ptext (nlsp 0).asString]
    = psubNodes (.ptext (nlsp 2).asString)
      ++ (psubNodes (.pel "channel".toList (channelKidsP now jobs))
      ++ (psubNodes (.ptext (nlsp 0).asString) ++ psubForest [])) from rfl]
  rw [show psubForest ([] : List PNode) = [] from rfl]
  simp only [List.filter_append, ptext_filter, List.filter_nil,
    List.append_nil, List.nil_append]
  rw [psubNodes_pel, List.filter_cons,
    if_neg (by rw [channel_not_item]; exact Bool.false_ne_true)]
  rw [channelKidsP, psubForest_append, psubForest_append,
    List.filter_append, List.filter_append, channel_head_filter,
    items_part_filter]
  rw [show psubForest [PNode.ptext (nlsp 2).asString]
    = psubNodes (.ptext (nlsp 2).asString) ++ psubForest [] from rfl]
  simp only [List.filter_append, ptext_filter, psubForest, List.filter_nil,
    List.append_nil, List.nil_append]

theorem findLinkChild_itemP (now : String) (j : Job) :
    findLinkChild (itemP now j) = some (textElemP "link".toList j.link) := by
  by_cases ht : j.title = "" <;> by_cases hl : j.link = "" <;>
    simp [findLinkChild, itemP, textElemP, ht, hl, List.find?]

theorem ptextOf_textElemP (s : String) (h : ¬s = "") :
    ptextOf (textElemP "link".toList s) = some s := by
  rw [textElemP, if_neg h]; rfl

theorem linkOk_ne_empty (s : String) (h : linkOk s = true) : ¬s = "" := by
  intro he
  rw [he] at h
  exact absurd h (by decide)

theorem linkOk_trim (s : String) (h : linkOk s = true) : strTrim s = s := by
  rw [linkOk, Bool.and_eq_true, List.all_eq_true] at h
  rw [strTrim, trimChars_no_ws s.toList fun c hc => by
    have := h.2 c hc
    simpa using this]
  exact asString_toList s

theorem addOnce_mem (acc : List String) (t l : String) :
    l ∈ addOnce acc t ↔ l ∈ acc ∨ l = t := by
  rw [addOnce]
  split
  · have ht : t ∈ acc := by
      rename_i hc
      simpa using hc
    constructor
    · exact Or.inl
    · rintro (h | rfl)
      · exact h
      · exact ht
  · simp [List.mem_append]

theorem extract_fold_mem (now : String) (jobs : List Job)
    (hj : ∀ j ∈ jobs, linkOk j.link = true) (acc : List String) (l : String) :
    (l ∈ (jobs.map (itemP now)).foldl
      (fun acc it =>
        match findLinkChild it with
        | none => acc
        | some le =>
          match ptextOf le with
          | none => acc
          | some t => if t = "" then acc else addOnce acc (strTrim t)) acc) ↔
      l ∈ acc ∨ l ∈ jobs.map Job.link := by
  induction jobs generalizing acc with
  | nil => simp
  | cons j rest ih =>
    have hjl : linkOk j.link = true := hj j (List.mem_cons_self j rest)
    have hne : ¬j.link = "" := linkOk_ne_empty _ hjl
    simp only [List.map_cons, List.foldl_cons, findLinkChild_itemP,
      ptextOf_textElemP j.link hne, if_neg hne, linkOk_trim j.link hjl]
    rw [ih fun x hx => hj x (List.mem_cons_of_mem j hx)]
    rw [addOnce_mem]
    simp [or_assoc]

theorem extract_parsedFeed_mem (now : String) (jobs : List Job)
    (hj : ∀ j ∈ jobs, linkOk j.link = true) (l : String) :
    l ∈ extractFeedLinks (parsedFeed now jobs) ↔ l ∈ jobs.map Job.link := by
  rw [extractFeedLinks, findItems_parsedFeed]
  rw [extract_fold_mem now jobs hj [] l]
  simp

/-- C7 counterexample: the parse side strips each link with `.strip()`
(source line 71), so a job link holding a trailing space is fed in but not
recovered — the round trip does not return exactly the set of links fed
in for every job list. -/
theorem C7_roundtrip_fails_unsanitized :
    jobC7.link ∈ [jobC7].map Job.link ∧
    jobC7.link ∉ get_existing_job_links (some (generate_rss_feed now0 [jobC7])) := by
  constructor
  · decide
  · decide

/-- C7 (amended): for every job list whose links are non-empty and
whitespace-free (as absolute URLs are) and whose timestamp, titles and
descriptions are newline-free, serializing to an RSS document and parsing
that document's item links recovers exactly the set of links fed in
(order-insensitive membership equivalence). -/
theorem C7_roundtrip_amended (now : String) (jobs : List Job)
    (hnow : textOk now = true) (hj : ∀ j ∈ jobs, jobOk j = true) :
    ∀ l, l ∈ get_existing_job_links (some (generate_rss_feed now jobs)) ↔
      l ∈ jobs.map Job.link := by
  intro l
  have hp := written_parses now jobs hnow hj
  simp only [get_existing_job_links, hp]
  refine extract_parsedFeed_mem now jobs (fun j hm => ?_) l
  have hok := hj j hm
  rw [jobOk, Bool.and_eq_true, Bool.and_eq_true] at hok
  exact hok.1.1

/-- C7 witness: the amended round trip at a concrete one-job list. -/
theorem C7_roundtrip_amended_witness :
    textOk now0 = true ∧ (∀ j ∈ [jX], jobOk j = true) ∧
    (jX.link ∈ get_existing_job_links (some (generate_rss_feed now0 [jX])) ↔
      jX.link ∈ [jX].map Job.link) :=
  ⟨by decide, by decide,
    C7_roundtrip_amended now0 [jX] (by decide) (by decide) jX.link⟩

theorem splitNL_ne_nil (a : List Char) : splitNL a ≠ [] := by
  cases a with
  | nil => simp [splitNL]
  | cons c rest =>
    rw [splitNL]
    split <;> simp

theorem splitNL_mem_no_nl (a : List Char) : ∀ l ∈ splitNL a, '\n' ∉ l := by
  induction a with
  | nil =>
    intro l hl
    simp only [splitNL, List.mem_singleton] at hl
    subst hl
    simp
  | cons c rest ih =>
    intro l hl
    by_cases hc : c = '\n'
    · rw [splitNL, if_pos hc] at hl
      rcases List.mem_cons.mp hl with rfl | hm
      · simp
      · exact ih l hm
    · rw [splitNL, if_neg hc] at hl
      rcases List.mem_cons.mp hl with rfl | hm
      · obtain ⟨h0, r0, hr⟩ : ∃ h0 r0, splitNL rest = h0 :: r0 := by
          cases he : splitNL rest with
          | nil => exact absurd he (splitNL_ne_nil rest)
          | cons x xs => exact ⟨x, xs, rfl⟩
        rw [hr]
        intro hmem
        rcases List.mem_cons.mp hmem with he | hm2
        · exact hc he.symm
        · exact ih h0 (hr ▸ List.mem_cons_self h0 r0) hm2
      · have hm2 : l ∈ (splitNL rest).tail := hm
        exact ih l (List.mem_of_mem_tail hm2)

theorem splitNL_joinNL (ls : List (List Char)) (h0 : ls ≠ [])
    (h : ∀ l ∈ ls, '\n' ∉ l) : splitNL (joinNL ls) = ls := by
  induction ls with
  | nil => exact absurd rfl h0
  | cons a rest ih =>
    cases rest with
    | nil =>
      rw [show joinNL [a] = a from rfl,
        splitNL_no_nl a (h a (List.mem_cons_self a []))]
    | cons b r2 =>
      rw [show joinNL (a :: b :: r2) = a ++ '\n' :: joinNL (b :: r2) from rfl,
        splitNL_append_nl a _ (h a (List.mem_cons_self a (b :: r2))),
        ih (by simp) fun l hl => h l (List.mem_cons_of_mem a hl)]

theorem prettyDoc_decl (root : XNode) :
    prettyDoc root = declChars ++ '\n' :: renderNode [] root := by
  rw [prettyDoc,
    show ("<?xml version=\"1.0\" ?>\n".toList : List Char) = declChars ++ ['\n']
      from rfl,
    List.append_assoc]
  rfl

theorem written_split_filter (now : String) (jobs : List Job) :
    splitNL (generate_rss_feed now jobs).toList =
      (splitNL (prettyDoc (buildRss now jobs))).filter fun l => !isBlankLine l := by
  rw [generate_rss_feed, toList_asString]
  refine splitNL_joinNL _ ?_ ?_
  · rw [prettyDoc_decl, splitNL_append_nl _ _ (by decide), List.filter_cons,
      if_pos (by decide)]
    exact List.cons_ne_nil _ _
  · intro l hl
    exact splitNL_mem_no_nl _ l (List.mem_of_mem_filter hl)

theorem written_nonblank (now : String) (jobs : List Job) :
    ∀ l ∈ splitNL (generate_rss_feed now jobs).toList, isBlankLine l = false := by
  rw [written_split_filter]
  intro l hl
  have := List.of_mem_filter hl
  simpa using this

theorem lineIndent_sp_lt (n : Nat) (xs : List Char) :
    lineIndent (sp n ++ '<' :: xs) = n := by
  induction n with
  | zero =>
    simp [lineIndent, sp, List.takeWhile_cons]
  | succ k ih =>
    rw [show sp (k + 1) = ' ' :: sp k from by
        simp [sp, List.replicate_succ],
      List.cons_append, lineIndent, List.takeWhile_cons, if_pos (by decide)]
    simp only [List.length_cons]
    exact congrArg (fun m => m + 1) ih

theorem drop_sp_lt (n : Nat) (xs : List Char) :
    (sp n ++ '<' :: xs).drop n = '<' :: xs := by
  have h := List.drop_left (sp n) ('<' :: xs)
  rwa [show (sp n).length = n by simp [sp]] at h

theorem textElemChunk_cons (t ats : List Char) (s : String) :
    ∃ xs, textElemChunk t ats s = '<' :: xs := by
  by_cases hs : s = "" <;>
    simp [textElemChunk, hs, selfChunk, elemChunk, openChunk]

theorem lineIndent_inline (ind : Nat) (t ats : List Char) (s : String) :
    lineIndent (inlineLine ind t ats s) = ind := by
  obtain ⟨xs, hx⟩ := textElemChunk_cons t ats s
  rw [inlineLine, hx, lineIndent_sp_lt]

theorem drop_inline (ind : Nat) (t ats : List Char) (s : String) :
    (inlineLine ind t ats s).drop (lineIndent (inlineLine ind t ats s)) =
      textElemChunk t ats s := by
  obtain ⟨xs, hx⟩ := textElemChunk_cons t ats s
  rw [lineIndent_inline, inlineLine, hx, drop_sp_lt]

theorem isSubChars_append_right (p a b : List Char) (h : isSubChars p b = true) :
    isSubChars p (a ++ b) = true := by
  induction a with
  | nil => simpa
  | cons c r ih => simp [isSubChars, List.cons_append, ih]

theorem startsClose_textElem (c : Char) (r ats : List Char) (s : String)
    (hc : ¬c = '/') :
    startsClose (textElemChunk (c :: r) ats s) = false := by
  have hgoal : (('<' == '<') && (c == '/')) = false := by
    rw [show ('<' == '<') = true from rfl, Bool.true_and]
    exact beq_eq_false_iff_ne.mpr hc
  by_cases hs : s = ""
  · rw [textElemChunk, if_pos hs]
    rw [show selfChunk (c :: r) ats
      = '<' :: c :: ((r ++ ats) ++ ['/', '>']) from by
        simp [selfChunk, List.cons_append]]
    exact hgoal
  · rw [textElemChunk, if_neg hs]
    rw [show elemChunk (c :: r) ats (esc s.toList)
      = '<' :: c :: (((r ++ ats) ++ ['>']) ++ (esc s.toList
          ++ closeChunk (c :: r))) from by
        simp [elemChunk, openChunk, List.cons_append, List.append_assoc]]
    exact hgoal

theorem inlineCond_textElem (t ats : List Char) (s : String) :
    (isSubChars ['<', '/'] (textElemChunk t ats s)
      || endsSelf (textElemChunk t ats s)) = true := by
  by_cases hs : s = ""
  · rw [textElemChunk, if_pos hs]
    have h : endsSelf (selfChunk t ats) = true := by
      rw [endsSelf, selfChunk]
      rw [show ('<' :: ((t ++ ats) ++ ['/', '>'])).reverse
        = '>' :: '/' :: ((t ++ ats).reverse ++ ['<']) from by
          simp [List.reverse_append]]
      simp [List.isPrefixOf]
    rw [h, Bool.or_true]
  · rw [textElemChunk, if_neg hs]
    have h1 : isSubChars ['<', '/'] (closeChunk t) = true := by
      rw [closeChunk]
      rw [show isSubChars ['<', '/'] ('<' :: '/' :: (t ++ ['>']))
        = (List.isPrefixOf ['<', '/'] ('<' :: '/' :: (t ++ ['>']))
            || isSubChars ['<', '/'] ('/' :: (t ++ ['>']))) from rfl]
      rw [show List.isPrefixOf ['<', '/'] ('<' :: '/' :: (t ++ ['>']))
        = true from by simp [List.isPrefixOf], Bool.true_or]
    have h2 : isSubChars ['<', '/'] (elemChunk t ats (esc s.toList)) = true := by
      rw [elemChunk, List.append_assoc]
      exact isSubChars_append_right _ _ _ (isSubChars_append_right _ _ _ h1)
    rw [h2, Bool.true_or]

theorem indentScan_inline (d ind : Nat) (c : Char) (r ats : List Char)
    (s : String) (L : List (List Char)) (hc : ¬c = '/') (hi : ind = 2 * d) :
    indentScan d (inlineLine ind (c :: r) ats s :: L) = indentScan d L := by
  conv_lhs => unfold indentScan
  rw [drop_inline]
  rw [if_neg (by
    rw [startsClose_textElem c r ats s hc]
    exact Bool.false_ne_true)]
  rw [if_pos (inlineCond_textElem (c :: r) ats s)]
  rw [lineIndent_inline, hi]
  rw [show (2 * d == 2 * d) = true from beq_self_eq_true (2 * d), Bool.true_and]

theorem scan_rss_open (L : List (List Char)) :
    indentScan 0 (openLine 0 "rss".toList rssAts :: L) = indentScan 1 L := by
  conv_lhs => unfold indentScan
  rw [if_neg (by decide), if_neg (by decide),
    show (lineIndent (openLine 0 "rss".toList rssAts) == 2 * 0) = true from
      by decide,
    Bool.true_and]

theorem scan_channel_open (L : List (List Char)) :
    indentScan 1 (openLine 2 "channel".toList [] :: L) = indentScan 2 L := by
  conv_lhs => unfold indentScan
  rw [if_neg (by decide), if_neg (by decide),
    show (lineIndent (openLine 2 "channel".toList []) == 2 * 1) = true from
      by decide,
    Bool.true_and]

theorem scan_item_open (L : List (List Char)) :
    indentScan 2 (openLine 4 "item".toList [] :: L) = indentScan 3 L := by
  conv_lhs => unfold indentScan
  rw [if_neg (by decide), if_neg (by decide),
    show (lineIndent (openLine 4 "item".toList []) == 2 * 2) = true from
      by decide,
    Bool.true_and]

theorem scan_item_close (L : List (List Char)) :
    indentScan 3 (closeLine 4 "item".toList :: L) = indentScan 2 L := by
  conv_lhs => unfold indentScan
  rw [if_pos (by decide),
    show (decide (1 ≤ 3) &&
      (lineIndent (closeLine 4 "item".toList) == 2 * (3 - 1))) = true from
      by decide,
    Bool.true_and]

theorem scan_channel_close (L : List (List Char)) :
    indentScan 2 (closeLine 2 "channel".toList :: L) = indentScan 1 L := by
  conv_lhs => unfold indentScan
  rw [if_pos (by decide),
    show (decide (1 ≤ 2) &&
      (lineIndent (closeLine 2 "channel".toList) == 2 * (2 - 1))) = true from
      by decide,
    Bool.true_and]

theorem scan_rss_close (L : List (List Char)) :
    indentScan 1 (closeLine 0 "rss".toList :: L) = indentScan 0 L := by
  conv_lhs => unfold indentScan
  rw [if_pos (by decide),
    show (decide (1 ≤ 1) &&
      (lineIndent (closeLine 0 "rss".toList) == 2 * (1 - 1))) = true from
      by decide,
    Bool.true_and]

theorem scan_ch_title (s : String) (L : List (List Char)) :
    indentScan 2 (inlineLine 4 "title".toList [] s :: L) = indentScan 2 L :=
  indentScan_inline 2 4 't' ['i', 't', 'l', 'e'] [] s L (by decide) rfl

theorem scan_ch_link (s : String) (L : List (List Char)) :
    indentScan 2 (inlineLine 4 "link".toList [] s :: L) = indentScan 2 L :=
  indentScan_inline 2 4 'l' ['i', 'n', 'k'] [] s L (by decide) rfl

theorem scan_ch_descr (s : String) (L : List (List Char)) :
    indentScan 2 (inlineLine 4 "description".toList [] s :: L) = indentScan 2 L :=
  indentScan_inline 2 4 'd'
    ['e', 's', 'c', 'r', 'i', 'p', 't', 'i', 'o', 'n'] [] s L (by decide) rfl

theorem scan_ch_language (s : String) (L : List (List Char)) :
    indentScan 2 (inlineLine 4 "language".toList [] s :: L) = indentScan 2 L :=
  indentScan_inline 2 4 'l' ['a', 'n', 'g', 'u', 'a', 'g', 'e'] [] s L
    (by decide) rfl

theorem scan_ch_pubDate (s : String) (L : List (List Char)) :
    indentScan 2 (inlineLine 4 "pubDate".toList [] s :: L) = indentScan 2 L :=
  indentScan_inline 2 4 'p' ['u', 'b', 'D', 'a', 't', 'e'] [] s L (by decide) rfl

theorem scan_it_title (s : String) (L : List (List Char)) :
    indentScan 3 (inlineLine 6 "title".toList [] s :: L) = indentScan 3 L :=
  indentScan_inline 3 6 't' ['i', 't', 'l', 'e'] [] s L (by decide) rfl

theorem scan_it_link (s : String) (L : List (List Char)) :
    indentScan 3 (inlineLine 6 "link".toList [] s :: L) = indentScan 3 L :=
  indentScan_inline 3 6 'l' ['i', 'n', 'k'] [] s L (by decide) rfl

theorem scan_it_descr (s : String) (L : List (List Char)) :
    indentScan 3 (inlineLine 6 "description".toList [] s :: L) = indentScan 3 L :=
  indentScan_inline 3 6 'd'
    ['e', 's', 'c', 'r', 'i', 'p', 't', 'i', 'o', 'n'] [] s L (by decide) rfl

theorem scan_it_guid (s : String) (L : List (List Char)) :
    indentScan 3 (inlineLine 6 "guid".toList guidAts s :: L) = indentScan 3 L :=
  indentScan_inline 3 6 'g' ['u', 'i', 'd'] guidAts s L (by decide) rfl

theorem scan_it_pubDate (s : String) (L : List (List Char)) :
    indentScan 3 (inlineLine 6 "pubDate".toList [] s :: L) = indentScan 3 L :=
  indentScan_inline 3 6 'p' ['u', 'b', 'D', 'a', 't', 'e'] [] s L (by decide) rfl

theorem scan_it_source (s : String) (L : List (List Char)) :
    indentScan 3 (inlineLine 6 "source".toList srcAts s :: L) = indentScan 3 L :=
  indentScan_inline 3 6 's' ['o', 'u', 'r', 'c', 'e'] srcAts s L (by decide) rfl

theorem indentScan_items (now : String) (jobs : List Job)
    (L : List (List Char)) :
    indentScan 2 (jobs.flatMap (itemLines now) ++ L) = indentScan 2 L := by
  induction jobs with
  | nil => rfl
  | cons j rest ih =>
    rw [List.flatMap_cons, List.append_assoc, itemLines]
    simp only [List.cons_append, List.nil_append]
    rw [scan_item_open, scan_it_title, scan_it_link, scan_it_descr,
      scan_it_guid, scan_it_pubDate, scan_it_source, scan_item_close]
    exact ih

theorem indentedTwo_feedLines (now : String) (jobs : List Job) :
    indentedTwo (feedLines now jobs) = true := by
  rw [feedLines, indentedTwo]
  rw [scan_rss_open, scan_channel_open, scan_ch_title, scan_ch_link,
    scan_ch_descr, scan_ch_language, scan_ch_pubDate, indentScan_items,
    scan_channel_close, scan_rss_close]
  rfl

theorem written_lines (now : String) (jobs : List Job)
    (hnow : textOk now = true) (hj : ∀ j ∈ jobs, jobOk j = true) :
    splitNL (generate_rss_feed now jobs).toList = feedLines now jobs := by
  rw [written_split_filter, render_eq_lines,
    splitNL_linesJoin _ (feedLines_no_nl now jobs hnow hj)]
  rw [List.filter_append,
    List.filter_eq_self.mpr (by
      intro l hl
      simp [feedLines_nonblank now jobs l hl]),
    show (List.filter (fun l => !isBlankLine l) [[]] : List (List Char)) = []
      by decide,
    List.append_nil]

/-- C8 counterexample: a newline inside a title splits its element across
output lines, and the continuation line sits at indent 0 instead of its
nesting level — the written document is not two-space-per-level indented
for every job list. -/
theorem C8_indent_fails_on_newline :
    indentedTwo (splitNL (generate_rss_feed now0 [jobC8]).toList) = false := by
  decide

/-- C8 (amended): every line of the written feed is non-blank, for every
job list; and for job lists whose links are non-empty and whitespace-free
and whose timestamp, titles and descriptions are newline-free, the written
document is indented two spaces per nesting level and parses back to the
expected feed tree. -/
theorem C8_formatting_amended :
    (∀ now : String, ∀ jobs : List Job,
      ∀ l ∈ splitNL (generate_rss_feed now jobs).toList,
        isBlankLine l = false) ∧
    (∀ now : String, ∀ jobs : List Job, textOk now = true →
      (∀ j ∈ jobs, jobOk j = true) →
      indentedTwo (splitNL (generate_rss_feed now jobs).toList) = true ∧
      parseXmlChars (generate_rss_feed now jobs).toList =
        some (parsedFeed now jobs)) := by
  refine ⟨written_nonblank, fun now jobs hnow hj => ⟨?_, written_parses now jobs hnow hj⟩⟩
  rw [written_lines now jobs hnow hj]
  exact indentedTwo_feedLines now jobs

/-- C8 witness: the amended formatting properties at a concrete one-job
list. -/
theorem C8_formatting_amended_witness :
    textOk now1 = true ∧ (∀ j ∈ [jY], jobOk j = true) ∧
    (indentedTwo (splitNL (generate_rss_feed now1 [jY]).toList) = true ∧
     parseXmlChars (generate_rss_feed now1 [jY]).toList =
       some (parsedFeed now1 [jY])) :=
  ⟨by decide, by decide, C8_formatting_amended.2 now1 [jY] (by decide) (by decide)⟩

/-- C10: serializing the empty job list yields a document that parses to
the full channel block with zero item elements, and the pipeline writes
exactly that empty feed when the scrape yields nothing and no prior feed
file exists. -/
theorem C10_empty_feed (now : String) (page : Option (List HNode))
    (hnow : textOk now = true) :
    parseXmlChars (generate_rss_feed now []).toList = some (emptyFeedP now) ∧
    findItems (emptyFeedP now) = [] ∧
    (scrape_worldbank_jobs page = [] →
      mainRun page none now = some (generate_rss_feed now [])) := by
  refine ⟨?_, ?_, ?_⟩
  · rw [written_parses now [] hnow (by simp)]
    rfl
  · exact (findItems_parsedFeed now []).trans rfl
  · intro h
    simp [mainRun, get_existing_job_links, newJobsOf, h]

/-- C10 witness: the empty-feed write at a concrete run where the render
step yields no page. -/
theorem C10_empty_feed_witness :
    textOk now0 = true ∧ scrape_worldbank_jobs none = [] ∧
    mainRun none none now0 = some (generate_rss_feed now0 []) :=
  ⟨by decide, rfl, (C10_empty_feed now0 none (by decide)).2.2 rfl⟩
